import Mathlib

/-!
Verification of the VQGAN-CLIP dream pipeline (dream.py, dreamlib/commands.py).

Python strings are modelled as `List Char`; machine integers are `Int`/`Nat`
(Python integers are unbounded, so no wrap-around modelling is needed);
exceptions are modelled with `Except`.
-/

set_option maxRecDepth 4000

namespace Dream

/-! ## Python string primitives -/

/-- Python whitespace characters, as recognised by `str.strip` / `str.split`. -/
def pyWS (c : Char) : Bool :=
  c == ' ' || c == '\t' || c == '\n' || c == '\r' || c == '\x0b' || c == '\x0c'

/-- Model of `str.lstrip()`. -/
def lstrip (s : List Char) : List Char := s.dropWhile pyWS

/-- Model of `str.rstrip()`. -/
def rstrip (s : List Char) : List Char := (s.reverse.dropWhile pyWS).reverse

/-- Model of `str.strip()` (both ends). -/
def pyStrip (s : List Char) : List Char := rstrip (lstrip s)

/-- Boolean test that `s` starts with `p`, i.e. Python `s.startswith(p)`. -/
def hasPre : List Char → List Char → Bool
  | _, [] => true
  | [], _ :: _ => false
  | c :: s, p :: ps => if c = p then hasPre s ps else false

/-- Boolean test that `s` ends with `p`, i.e. Python `s.endswith(p)`. -/
def hasSuf (s p : List Char) : Bool := hasPre s.reverse p.reverse

/-- Value of a string of decimal digit characters, i.e. Python `int(s)`
on a nonempty all-digit string. -/
def natOfDigits (s : List Char) : Nat := s.foldl (fun a c => a * 10 + (c.toNat - 48)) 0

/-- The decimal digit character for a value below ten. -/
def digitChar : Nat → Char
  | 0 => '0' | 1 => '1' | 2 => '2' | 3 => '3' | 4 => '4'
  | 5 => '5' | 6 => '6' | 7 => '7' | 8 => '8' | 9 => '9'
  | _ => '*'

/-- Fuel-driven accumulator for `natToDigits`. -/
def natToDigitsAux : Nat → Nat → List Char
  | 0, _ => []
  | f + 1, n => if n = 0 then [] else natToDigitsAux f (n / 10) ++ [digitChar (n % 10)]

/-- Decimal rendering of a natural number, i.e. Python `str(n)` for `n ≥ 0`. -/
def natToDigits (n : Nat) : List Char := if n = 0 then ['0'] else natToDigitsAux n n

/-- Decimal rendering of an integer, i.e. Python `str(i)`. -/
def pyStrInt (i : Int) : List Char :=
  if i < 0 then '-' :: natToDigits i.natAbs else natToDigits i.natAbs

/-- A string occurs as a contiguous segment of another. -/
def Seg (t s : List Char) : Prop := ∃ a b, s = a ++ t ++ b

/-! ## Lemmas about the string primitives -/

theorem hasPre_append (p s : List Char) : hasPre (p ++ s) p = true := by
  induction p with
  | nil => cases s <;> rfl
  | cons c cs ih => simp [hasPre, ih]

theorem hasPre_iff (s p : List Char) : hasPre s p = true ↔ ∃ t, s = p ++ t := by
  induction p generalizing s with
  | nil =>
    constructor
    · intro _; exact ⟨s, rfl⟩
    · intro _; cases s <;> rfl
  | cons c cs ih =>
    cases s with
    | nil =>
      simp only [hasPre]
      constructor
      · intro h; cases h
      · rintro ⟨t, ht⟩; cases ht
    | cons d ds =>
      simp only [hasPre]
      by_cases hdc : d = c
      · subst hdc
        rw [if_pos rfl, ih]
        constructor
        · rintro ⟨t, rfl⟩; exact ⟨t, rfl⟩
        · rintro ⟨t, ht⟩
          rw [List.cons_append] at ht
          injection ht with _ h2
          exact ⟨t, h2⟩
      · rw [if_neg hdc]
        constructor
        · intro h; cases h
        · rintro ⟨t, ht⟩
          rw [List.cons_append] at ht
          injection ht with h1 _
          exact absurd h1 hdc

theorem hasSuf_append (s p : List Char) : hasSuf (s ++ p) p = true := by
  unfold hasSuf
  rw [List.reverse_append]
  exact hasPre_append p.reverse s.reverse

theorem dropWhile_app (p : Char → Bool) (a b : List Char) :
    List.dropWhile p (a ++ b) =
      if List.dropWhile p a = [] then List.dropWhile p b else List.dropWhile p a ++ b := by
  induction a with
  | nil => simp
  | cons c cs ih =>
    by_cases h : p c
    · simpa [List.dropWhile, h] using ih
    · simp [List.dropWhile, h]

theorem dropWhile_head_false {p : Char → Bool} {l : List Char} {c : Char} {cs : List Char}
    (h : List.dropWhile p l = c :: cs) : p c = false := by
  induction l with
  | nil => cases h
  | cons d ds ih =>
    by_cases hd : p d
    · exact ih (by simpa [List.dropWhile, hd] using h)
    · rw [List.dropWhile_cons_of_neg (by simpa using hd)] at h
      injection h with h1 _
      rw [← h1]
      simpa using hd

theorem dropWhile_idem (p : Char → Bool) (l : List Char) :
    List.dropWhile p (List.dropWhile p l) = List.dropWhile p l := by
  cases h : List.dropWhile p l with
  | nil => rfl
  | cons c cs =>
    have := dropWhile_head_false h
    rw [List.dropWhile_cons_of_neg (by simp [this])]

theorem dropWhile_eq_self_of_head (p : Char → Bool) (c : Char) (cs : List Char)
    (h : p c = false) : List.dropWhile p (c :: cs) = c :: cs := by
  rw [List.dropWhile_cons_of_neg (by simp [h])]

theorem rstrip_append (a b : List Char) :
    rstrip (a ++ b) = if rstrip b = [] then rstrip a else a ++ rstrip b := by
  unfold rstrip
  rw [List.reverse_append, dropWhile_app]
  by_cases h : List.dropWhile pyWS b.reverse = []
  · simp [h]
  · rw [if_neg h]
    have : (List.dropWhile pyWS b.reverse).reverse ≠ [] := by
      simpa using h
    rw [if_neg this, List.reverse_append, List.reverse_reverse]

theorem rstrip_all_ws {b : List Char} (h : ∀ c ∈ b, pyWS c = true) : rstrip b = [] := by
  unfold rstrip
  have : List.dropWhile pyWS b.reverse = [] := by
    rw [List.dropWhile_eq_nil_iff]
    intro c hc
    simpa using h c (List.mem_reverse.mp hc)
  simp [this]

theorem rstrip_eq_nil_iff (b : List Char) : rstrip b = [] ↔ ∀ c ∈ b, pyWS c = true := by
  constructor
  · intro h c hc
    unfold rstrip at h
    rw [List.reverse_eq_nil_iff, List.dropWhile_eq_nil_iff] at h
    simpa using h c (List.mem_reverse.mpr hc)
  · exact rstrip_all_ws

theorem rstrip_no_ws {t : List Char} (h : ∀ c ∈ t, pyWS c = false) : rstrip t = t := by
  cases ht : t.reverse with
  | nil =>
    have h0 : t = [] := by simpa using congrArg List.reverse ht
    subst h0
    rfl
  | cons c cs =>
    have hc : pyWS c = false := by
      have : c ∈ t := List.mem_reverse.mp (ht ▸ List.mem_cons_self c cs)
      exact h c this
    calc rstrip t = (List.dropWhile pyWS (c :: cs)).reverse := by
          unfold rstrip; rw [ht]
      _ = (c :: cs).reverse := by rw [dropWhile_eq_self_of_head _ _ _ hc]
      _ = t.reverse.reverse := by rw [ht]
      _ = t := List.reverse_reverse t

theorem rstrip_idem (l : List Char) : rstrip (rstrip l) = rstrip l := by
  unfold rstrip
  rw [List.reverse_reverse, dropWhile_idem]

theorem rstrip_cons_of_neg {c : Char} (hc : pyWS c = false) (cs : List Char) :
    rstrip (c :: cs) = c :: rstrip cs := by
  have h := rstrip_append [c] cs
  rw [List.singleton_append] at h
  by_cases hcs : rstrip cs = []
  · rw [if_pos hcs] at h
    rw [h, hcs]
    exact rstrip_no_ws (by intro x hx; rw [List.mem_singleton] at hx; subst hx; exact hc)
  · rw [if_neg hcs] at h
    rw [h]
    rfl

theorem lstrip_pyStrip (s : List Char) : lstrip (pyStrip s) = pyStrip s := by
  show lstrip (rstrip (lstrip s)) = rstrip (lstrip s)
  cases h : lstrip s with
  | nil => rfl
  | cons c cs =>
    have hc : pyWS c = false := dropWhile_head_false (p := pyWS) h
    rw [rstrip_cons_of_neg hc]
    exact dropWhile_eq_self_of_head _ _ _ hc

theorem pyStrip_idem (s : List Char) : pyStrip (pyStrip s) = pyStrip s := by
  show rstrip (lstrip (pyStrip s)) = pyStrip s
  rw [lstrip_pyStrip]
  show rstrip (rstrip (lstrip s)) = rstrip (lstrip s)
  exact rstrip_idem _

/-! ## Decimal digit lemmas -/

theorem digitChar_isDigit {d : Nat} (h : d < 10) : (digitChar d).isDigit = true := by
  interval_cases d <;> decide

theorem digitChar_toNat {d : Nat} (h : d < 10) : (digitChar d).toNat = 48 + d := by
  interval_cases d <;> decide

theorem natOfDigits_append (l : List Char) (c : Char) :
    natOfDigits (l ++ [c]) = natOfDigits l * 10 + (c.toNat - 48) := by
  unfold natOfDigits
  rw [List.foldl_append]
  rfl

theorem natToDigitsAux_spec :
    ∀ f n, n ≤ f →
      natOfDigits (natToDigitsAux f n) = n ∧
      (∀ c ∈ natToDigitsAux f n, c.isDigit = true) ∧
      (n ≠ 0 → natToDigitsAux f n ≠ []) := by
  intro f
  induction f with
  | zero =>
    intro n hn
    have h0 : n = 0 := Nat.le_zero.mp hn
    subst h0
    refine ⟨rfl, ?_, ?_⟩
    · intro c hc
      simp [natToDigitsAux] at hc
    · intro h
      exact absurd rfl h
  | succ f ih =>
    intro n hn
    by_cases h0 : n = 0
    · subst h0
      exact ⟨rfl, by intro c hc; simp [natToDigitsAux] at hc, by intro h; exact absurd rfl h⟩
    · have hdiv : n / 10 ≤ f := by
        have : n / 10 < n := Nat.div_lt_self (Nat.pos_of_ne_zero h0) (by omega)
        omega
      obtain ⟨ihv, ihd, _⟩ := ih (n / 10) hdiv
      have hmod : n % 10 < 10 := Nat.mod_lt _ (by omega)
      refine ⟨?_, ?_, ?_⟩
      · rw [natToDigitsAux, if_neg h0, natOfDigits_append, ihv, digitChar_toNat hmod]
        omega
      · intro c hc
        rw [natToDigitsAux, if_neg h0] at hc
        rcases List.mem_append.mp hc with h | h
        · exact ihd c h
        · rw [List.mem_singleton] at h
          subst h
          exact digitChar_isDigit hmod
      · intro _
        rw [natToDigitsAux, if_neg h0]
        simp

theorem natToDigits_roundtrip (n : Nat) : natOfDigits (natToDigits n) = n := by
  unfold natToDigits
  by_cases h : n = 0
  · subst h; rw [if_pos rfl]; rfl
  · rw [if_neg h]
    exact (natToDigitsAux_spec n n le_rfl).1

theorem natToDigits_all_digit (n : Nat) : ∀ c ∈ natToDigits n, c.isDigit = true := by
  intro c hc
  unfold natToDigits at hc
  by_cases h : n = 0
  · subst h
    rw [if_pos rfl, List.mem_singleton] at hc
    subst hc; decide
  · rw [if_neg h] at hc
    exact (natToDigitsAux_spec n n le_rfl).2.1 c hc

theorem natToDigits_ne_nil (n : Nat) : natToDigits n ≠ [] := by
  unfold natToDigits
  by_cases h : n = 0
  · subst h; rw [if_pos rfl]; simp
  · rw [if_neg h]
    exact (natToDigitsAux_spec n n le_rfl).2.2 h

/-! ## Whitespace tokenisation (Python `str.split()` with no argument) -/

/-- Whitespace-separated tokens of a string, as produced by Python `s.split()`. -/
def tokenize (s : List Char) : List (List Char) :=
  if h : s.dropWhile pyWS = [] then []
  else
    (s.dropWhile pyWS).takeWhile (fun x => !pyWS x) ::
      tokenize ((s.dropWhile pyWS).dropWhile (fun x => !pyWS x))
termination_by s.length
decreasing_by
  cases hu : s.dropWhile pyWS with
  | nil => exact absurd hu h
  | cons c cs =>
    have hc : pyWS c = false := dropWhile_head_false hu
    have h1 : (c :: cs).length ≤ s.length := by
      have h2 := (List.dropWhile_sublist (l := s) pyWS).length_le
      rw [hu] at h2
      exact h2
    rw [List.dropWhile_cons_of_pos (by simp [hc])]
    have h3 := (List.dropWhile_sublist (l := cs) (fun x => !pyWS x)).length_le
    simp only [List.length_cons] at h1
    omega

/-- Every token of `s` is a nonempty contiguous segment of `pyStrip s`. -/
theorem tokenize_seg_strip :
    ∀ n s, s.length ≤ n → ∀ t ∈ tokenize s, t ≠ [] ∧ Seg t (pyStrip s) := by
  intro n
  induction n with
  | zero =>
    intro s hs t ht
    have h0 : s = [] := List.eq_nil_of_length_eq_zero (Nat.le_zero.mp hs)
    subst h0
    rw [tokenize] at ht
    simp at ht
  | succ n ih =>
    intro s hs t ht
    rw [tokenize] at ht
    by_cases h : s.dropWhile pyWS = []
    · rw [dif_pos h] at ht
      cases ht
    · rw [dif_neg h] at ht
      cases hu : s.dropWhile pyWS with
      | nil => exact absurd hu h
      | cons c cs =>
        simp only [hu] at ht
        have hc : pyWS c = false := dropWhile_head_false hu
        have hstrip : pyStrip s = rstrip (c :: cs) := by
          unfold pyStrip lstrip
          rw [hu]
        set tok := (c :: cs).takeWhile (fun x => !pyWS x) with htok
        set rest := (c :: cs).dropWhile (fun x => !pyWS x) with hrest
        have hsplit : tok ++ rest = c :: cs := List.takeWhile_append_dropWhile _ _
        have htoknn : tok ≠ [] := by
          rw [htok, List.takeWhile_cons_of_pos (by simp [hc])]
          simp
        have htokws : ∀ x ∈ tok, pyWS x = false := by
          intro x hx
          have := List.mem_takeWhile_imp hx
          simpa using this
        rcases List.mem_cons.mp ht with hteq | htmem
        · subst hteq
          refine ⟨htoknn, ?_⟩
          rw [hstrip, ← hsplit, rstrip_append]
          by_cases hr : rstrip rest = []
          · rw [if_pos hr, rstrip_no_ws htokws]
            exact ⟨[], [], by simp⟩
          · rw [if_neg hr]
            exact ⟨[], rstrip rest, by simp⟩
        · have hlen : rest.length ≤ n := by
            have h1 : (c :: cs).length ≤ s.length := by
              have h2 := (List.dropWhile_sublist (l := s) pyWS).length_le
              rw [hu] at h2
              exact h2
            have h3 : rest.length < (c :: cs).length := by
              rw [hrest, List.dropWhile_cons_of_pos (by simp [hc])]
              have h4 := (List.dropWhile_sublist (l := cs) (fun x => !pyWS x)).length_le
              simp only [List.length_cons]
              omega
            omega
          obtain ⟨htnn, a, b, hab⟩ := ih rest hlen t htmem
          refine ⟨htnn, ?_⟩
          have hrsplit : rest.takeWhile pyWS ++ lstrip rest = rest :=
            List.takeWhile_append_dropWhile _ _
          by_cases hps : pyStrip rest = []
          · rw [hps] at hab
            exfalso
            have : t = [] := by
              have := congrArg List.length hab
              simp at this
              exact List.eq_nil_of_length_eq_zero (by omega)
            exact htnn this
          · rw [hstrip, ← hsplit, ← hrsplit]
            have hps' : rstrip (lstrip rest) ≠ [] := hps
            rw [← List.append_assoc, rstrip_append]
            rw [if_neg hps']
            have : rstrip (lstrip rest) = a ++ t ++ b := hab
            rw [this]
            exact ⟨tok ++ rest.takeWhile pyWS ++ a, b, by simp⟩

/-! ## Command model (dreamlib/commands.py) -/

/-- Error raised by `GenerateVideoCommand.from_input_line` on a malformed line
(`InvalidCommandStringError` in the source). -/
inductive CmdErr
  | invalidCommandString
deriving DecidableEq

/-- The job description built by one script line
(`GenerateVideoCommand` in dreamlib/commands.py). -/
structure GenerateVideoCommand where
  cmd_string : List Char
  video_len_s : Int
  initial_frame_path : Option (List Char) := none
  dimensions : Int × Int := (380, 380)
  frame_rate : Int := 30
  save_every_freq : Int := 3
deriving DecidableEq

/-- The fixed invocation of the external generator
(`CMD_BASE`, with the generator script path as a parameter). -/
def CMD_BASE (gen_script_path : List Char) : List Char :=
  "python ".toList ++ gen_script_path ++ " -vid".toList

/-- Dataclass construction followed by `__post_init__`, which strips
`cmd_string`. -/
def mkCommand (cmd_string : List Char) (video_len_s : Int) : GenerateVideoCommand :=
  { cmd_string := pyStrip cmd_string, video_len_s := video_len_s }

/-- `GenerateVideoCommand.from_input_line`: the line is matched against the
regular expression `(?P<video_len>\d+)(?P<cmd>.*)` with `re.match`; the
leading digit run becomes `video_len_s` and the rest of the line (up to a
newline, which `.` does not match) becomes `cmd_string`. -/
def from_input_line (line : List Char) : Except CmdErr GenerateVideoCommand :=
  let ds := line.takeWhile Char.isDigit
  if ds = [] then .error .invalidCommandString
  else
    .ok (mkCommand ((line.dropWhile Char.isDigit).takeWhile (fun c => !(c = '\n')))
      (Int.ofNat (natOfDigits ds)))

/-- `GenerateVideoCommand.__str__`: renders the full generator invocation. -/
def render (gen_script_path : List Char) (c : GenerateVideoCommand) : List Char :=
  let s0 := CMD_BASE gen_script_path ++ ' ' :: pyStrip c.cmd_string
  let n_iterations := c.frame_rate * c.video_len_s * c.save_every_freq
  let s1 := s0 ++ " -i ".toList ++ pyStrInt n_iterations
  let s2 := s1 ++ " -se ".toList ++ pyStrInt c.save_every_freq
  let s3 := s2 ++ " -vl ".toList ++ pyStrInt c.video_len_s
  let s4 :=
    match c.initial_frame_path with
    | some p => s3 ++ " -ii ".toList ++ p
    | none => s3
  s4 ++ " -s ".toList ++ pyStrInt c.dimensions.1 ++ ' ' :: pyStrInt c.dimensions.2

/-- `GenerateVideoCommand.add_options`: appends a stripped option fragment,
doing nothing when the stripped fragment is empty. -/
def add_options (c : GenerateVideoCommand) (cmd_string : List Char) : GenerateVideoCommand :=
  let t := pyStrip cmd_string
  if t = [] then c else { c with cmd_string := c.cmd_string ++ ' ' :: t }

/-- A well-formed `video` config section: the four required integer fields and
the optional `extra-options` string. -/
structure VideoConfig where
  frameRate : Int
  width : Int
  height : Int
  saveEveryFreq : Int
  extraOptions : Option (List Char)
deriving DecidableEq

/-- `GenerateVideoCommand.add_options_from_config`: overwrites `frame_rate`,
`dimensions` and `save_every_freq` from the config and, when `extra-options`
is present, appends it via `add_options`. -/
def add_options_from_config (c : GenerateVideoCommand) (config : VideoConfig) :
    GenerateVideoCommand :=
  let c' := { c with frame_rate := config.frameRate,
                     dimensions := (config.width, config.height),
                     save_every_freq := config.saveEveryFreq }
  match config.extraOptions with
  | some eo => add_options c' eo
  | none => c'

/-! ## Claims about the command model -/

theorem takeWhile_no_nl {l : List Char} (h : '\n' ∉ l) :
    l.takeWhile (fun c => !(c = '\n')) = l := by
  induction l with
  | nil => rfl
  | cons c cs ih =>
    have hc : ¬ c = '\n' := fun hc => h (hc ▸ List.mem_cons_self c cs)
    rw [List.takeWhile_cons_of_pos (by simp [hc])]
    rw [ih (fun hx => h (List.mem_cons_of_mem c hx))]

/-- Sample config carrying a nonempty `extra-options` entry. -/
def cfgWithExtra : VideoConfig :=
  { frameRate := 24, width := 100, height := 200, saveEveryFreq := 2,
    extraOptions := some " --x".toList }

/-- Sample config with no `extra-options` entry. -/
def cfgNoExtra : VideoConfig :=
  { frameRate := 24, width := 100, height := 200, saveEveryFreq := 2,
    extraOptions := none }

/-- C3: `GenerateVideoCommand.__str__` emits the invocation in exactly the
order: base generator invocation, accumulated options, the `-i` iterations
flag valued `frame_rate * video_len_s * save_every_freq`, the `-se` flag,
the `-vl` duration flag, the `-ii` seed-frame flag exactly when
`initial_frame_path` is set, then the `-s` dimensions flag with the two
integers. -/
theorem c3_render_order (gp : List Char) (c : GenerateVideoCommand) :
    render gp c =
      CMD_BASE gp ++ ' ' :: pyStrip c.cmd_string
        ++ " -i ".toList ++ pyStrInt (c.frame_rate * c.video_len_s * c.save_every_freq)
        ++ " -se ".toList ++ pyStrInt c.save_every_freq
        ++ " -vl ".toList ++ pyStrInt c.video_len_s
        ++ (match c.initial_frame_path with
            | some p => " -ii ".toList ++ p
            | none => ([] : List Char))
        ++ " -s ".toList ++ pyStrInt c.dimensions.1 ++ ' ' :: pyStrInt c.dimensions.2 := by
  unfold render
  rcases hi : c.initial_frame_path with _ | p <;> simp [hi]

/-- C5 counterexample: applying `add_options_from_config` twice with a config
whose `extra-options` is the nonempty string `" --x"` changes the job again
(the extra options are appended a second time), so the operation is not
idempotent as claimed. -/
theorem c5_apply_config_twice_differs :
    add_options_from_config (add_options_from_config (mkCommand "foo".toList 1) cfgWithExtra)
        cfgWithExtra ≠
      add_options_from_config (mkCommand "foo".toList 1) cfgWithExtra := by
  decide

/-- C5 (amended): `add_options_from_config` is idempotent exactly when the
config carries no `extra-options`, or its `extra-options` value strips to the
empty string; the integer fields are always overwritten idempotently. -/
theorem c5_apply_config_idempotent_without_extra (c : GenerateVideoCommand) (cfg : VideoConfig)
    (h : cfg.extraOptions = none ∨ ∃ eo, cfg.extraOptions = some eo ∧ pyStrip eo = []) :
    add_options_from_config (add_options_from_config c cfg) cfg =
      add_options_from_config c cfg := by
  rcases h with h | ⟨eo, heo, he⟩
  · simp [add_options_from_config, h]
  · simp [add_options_from_config, heo, add_options, he]

theorem c5_apply_config_idempotent_witness :
    cfgNoExtra.extraOptions = none ∧
      add_options_from_config (add_options_from_config (mkCommand "foo".toList 1) cfgNoExtra)
          cfgNoExtra =
        add_options_from_config (mkCommand "foo".toList 1) cfgNoExtra :=
  ⟨rfl, c5_apply_config_idempotent_without_extra _ _ (Or.inl rfl)⟩

/-- C8: `from_input_line` succeeds exactly on lines starting with at least one
digit; on success `video_len_s` is the integer value of the leading digit run
and `cmd_string` is the whitespace-stripped remainder; otherwise it fails with
`InvalidCommandStringError`. -/
theorem c8_from_input_line_spec (line : List Char) (hnl : '\n' ∉ line) :
    (line.takeWhile Char.isDigit ≠ [] ↔ ∃ c cs, line = c :: cs ∧ c.isDigit = true) ∧
    (line.takeWhile Char.isDigit = [] →
      from_input_line line = Except.error CmdErr.invalidCommandString) ∧
    (line.takeWhile Char.isDigit ≠ [] →
      ∃ job, from_input_line line = Except.ok job ∧
        job.video_len_s = Int.ofNat (natOfDigits (line.takeWhile Char.isDigit)) ∧
        job.cmd_string = pyStrip (line.dropWhile Char.isDigit)) := by
  refine ⟨?_, ?_, ?_⟩
  · cases line with
    | nil => simp
    | cons c cs =>
      by_cases hc : c.isDigit = true
      · rw [List.takeWhile_cons_of_pos hc]
        constructor
        · intro _; exact ⟨c, cs, rfl, hc⟩
        · intro _; simp
      · rw [List.takeWhile_cons_of_neg (by simpa using hc)]
        constructor
        · intro h; exact absurd rfl h
        · rintro ⟨d, ds, hds, hd⟩
          injection hds with h1 _
          exact absurd (h1 ▸ hd) hc
  · intro h
    simp [from_input_line, h]
  · intro h
    have hnl2 : '\n' ∉ line.dropWhile Char.isDigit :=
      fun hx => hnl ((List.dropWhile_sublist _).subset hx)
    have htw := takeWhile_no_nl hnl2
    refine ⟨mkCommand (line.dropWhile Char.isDigit)
      (Int.ofNat (natOfDigits (line.takeWhile Char.isDigit))), ?_, rfl, rfl⟩
    simp [from_input_line, h, htw]

theorem c8_from_input_line_witness :
    (∃ job, from_input_line "12 hi".toList = Except.ok job ∧
        job.video_len_s = Int.ofNat (natOfDigits ("12 hi".toList.takeWhile Char.isDigit)) ∧
        job.cmd_string = pyStrip ("12 hi".toList.dropWhile Char.isDigit)) ∧
    from_input_line "hello".toList = Except.error CmdErr.invalidCommandString :=
  ⟨(c8_from_input_line_spec "12 hi".toList (by decide)).2.2 (by decide),
   (c8_from_input_line_spec "hello".toList (by decide)).2.1 (by decide)⟩

theorem takeWhile_all_app {p : Char → Bool} {a : List Char} (b : List Char)
    (h : ∀ x ∈ a, p x = true) :
    List.takeWhile p (a ++ b) = a ++ List.takeWhile p b := by
  induction a with
  | nil => simp
  | cons c cs ih =>
    rw [List.cons_append, List.takeWhile_cons_of_pos (h c (List.mem_cons_self c cs))]
    rw [ih (fun x hx => h x (List.mem_cons_of_mem c hx)), List.cons_append]

theorem dropWhile_all_app {p : Char → Bool} {a : List Char} (b : List Char)
    (h : ∀ x ∈ a, p x = true) :
    List.dropWhile p (a ++ b) = List.dropWhile p b := by
  induction a with
  | nil => simp
  | cons c cs ih =>
    rw [List.cons_append, List.dropWhile_cons_of_pos (h c (List.mem_cons_self c cs))]
    exact ih (fun x hx => h x (List.mem_cons_of_mem c hx))

theorem seg_extend {t m : List Char} (h : Seg t m) (pre post : List Char) :
    Seg t (pre ++ m ++ post) := by
  obtain ⟨a, b, rfl⟩ := h
  exact ⟨pre ++ a, b ++ post, by simp⟩

/-- C4: parsing a line made of the decimal rendering of `n` followed by a
non-digit-leading, newline-free remainder and then rendering the job yields
duration `n` and an invocation containing every whitespace token of the
remainder after the base invocation. -/
theorem c4_parse_then_render (gp : List Char) (n : Nat) (rest : List Char)
    (hd : ∀ c, rest.head? = some c → c.isDigit = false)
    (hnl : '\n' ∉ rest) :
    ∃ job, from_input_line (natToDigits n ++ rest) = Except.ok job ∧
      job.video_len_s = Int.ofNat n ∧
      ∃ post, render gp job = CMD_BASE gp ++ post ∧
        ∀ t ∈ tokenize rest, Seg t post := by
  have hall : ∀ x ∈ natToDigits n, Char.isDigit x = true := natToDigits_all_digit n
  have hrt : rest.takeWhile Char.isDigit = [] := by
    cases rest with
    | nil => rfl
    | cons c cs => rw [List.takeWhile_cons_of_neg (by simpa using hd c rfl)]
  have hds : (natToDigits n ++ rest).takeWhile Char.isDigit = natToDigits n := by
    rw [takeWhile_all_app rest hall, hrt, List.append_nil]
  have hdw : (natToDigits n ++ rest).dropWhile Char.isDigit = rest := by
    rw [dropWhile_all_app rest hall]
    cases rest with
    | nil => rfl
    | cons c cs => exact dropWhile_eq_self_of_head _ _ _ (hd c rfl)
  refine ⟨mkCommand rest (Int.ofNat n), ?_, rfl, ?_⟩
  · simp only [from_input_line, hds, hdw]
    rw [if_neg (natToDigits_ne_nil n), takeWhile_no_nl hnl, natToDigits_roundtrip]
  · refine ⟨[' '] ++ pyStrip rest ++
      (" -i ".toList ++ pyStrInt (30 * Int.ofNat n * 3) ++ " -se ".toList ++ pyStrInt 3 ++
        " -vl ".toList ++ pyStrInt (Int.ofNat n) ++ " -s ".toList ++ pyStrInt 380 ++
        ' ' :: pyStrInt 380), ?_, ?_⟩
    · simp [render, mkCommand, pyStrip_idem]
    · intro t ht
      obtain ⟨_, hseg⟩ := tokenize_seg_strip rest.length rest le_rfl t ht
      exact seg_extend hseg [' '] _

theorem c4_parse_then_render_witness :
    ∃ job, from_input_line (natToDigits 5 ++ " foo bar".toList) = Except.ok job ∧
      job.video_len_s = Int.ofNat 5 ∧
      ∃ post, render "generate.py".toList job = CMD_BASE "generate.py".toList ++ post ∧
        ∀ t ∈ tokenize " foo bar".toList, Seg t post :=
  c4_parse_then_render "generate.py".toList 5 " foo bar".toList
    (by intro c hc; injection hc with h1; rw [← h1]; decide) (by decide)

/-! ## Stable sorting (model of Python `sorted`) -/

/-- Stable insertion into a sorted list. -/
def insertLe {α : Type} (le : α → α → Bool) (x : α) : List α → List α
  | [] => [x]
  | y :: ys => if le x y then x :: y :: ys else y :: insertLe le x ys

/-- Stable insertion sort: the model of Python's stable `sorted`. -/
def sortLe {α : Type} (le : α → α → Bool) : List α → List α
  | [] => []
  | x :: xs => insertLe le x (sortLe le xs)

theorem insertLe_perm {α : Type} (le : α → α → Bool) (x : α) (l : List α) :
    List.Perm (insertLe le x l) (x :: l) := by
  induction l with
  | nil => exact List.Perm.refl _
  | cons y ys ih =>
    by_cases h : le x y = true
    · rw [insertLe, if_pos h]
    · rw [insertLe, if_neg h]
      exact List.Perm.trans (ih.cons y) (List.Perm.swap x y ys)

theorem sortLe_perm {α : Type} (le : α → α → Bool) (l : List α) :
    List.Perm (sortLe le l) l := by
  induction l with
  | nil => exact List.Perm.refl _
  | cons x xs ih =>
    exact List.Perm.trans (insertLe_perm le x (sortLe le xs)) (ih.cons x)

theorem insertLe_pairwise {α : Type} {le : α → α → Bool}
    (htot : ∀ a b, (le a b || le b a) = true)
    (htr : ∀ a b c, le a b = true → le b c = true → le a c = true)
    {l : List α} (hl : l.Pairwise (fun a b => le a b = true)) (x : α) :
    (insertLe le x l).Pairwise (fun a b => le a b = true) := by
  induction l with
  | nil => simp [insertLe]
  | cons y ys ih =>
    rcases List.pairwise_cons.mp hl with ⟨hy, hys⟩
    by_cases h : le x y = true
    · rw [insertLe, if_pos h]
      refine List.pairwise_cons.mpr ⟨?_, hl⟩
      intro b hb
      rcases List.mem_cons.mp hb with rfl | hb
      · exact h
      · exact htr x y b h (hy b hb)
    · rw [insertLe, if_neg h]
      have hyx : le y x = true := by
        have h2 := htot x y
        rcases Bool.or_eq_true_iff.mp h2 with h3 | h3
        · exact absurd h3 h
        · exact h3
      refine List.pairwise_cons.mpr ⟨?_, ih hys⟩
      intro b hb
      have hbmem : b ∈ x :: ys := (insertLe_perm le x ys).mem_iff.mp hb
      rcases List.mem_cons.mp hbmem with rfl | hb2
      · exact hyx
      · exact hy b hb2

theorem sortLe_pairwise {α : Type} {le : α → α → Bool}
    (htot : ∀ a b, (le a b || le b a) = true)
    (htr : ∀ a b c, le a b = true → le b c = true → le a c = true)
    (l : List α) :
    (sortLe le l).Pairwise (fun a b => le a b = true) := by
  induction l with
  | nil => simp [sortLe]
  | cons x xs ih => exact insertLe_pairwise htot htr ih x

theorem insertLe_map {α β : Type} {f : α → β} {le : α → α → Bool} {le' : β → β → Bool}
    (hc : ∀ a b, le' (f a) (f b) = le a b) (x : α) (l : List α) :
    insertLe le' (f x) (l.map f) = (insertLe le x l).map f := by
  induction l with
  | nil => rfl
  | cons y ys ih =>
    rw [List.map_cons, insertLe, insertLe, hc]
    by_cases h : le x y = true
    · rw [if_pos h, if_pos h, List.map_cons, List.map_cons]
    · rw [if_neg h, if_neg h, List.map_cons, ih]

theorem sortLe_map {α β : Type} {f : α → β} {le : α → α → Bool} {le' : β → β → Bool}
    (hc : ∀ a b, le' (f a) (f b) = le a b) (l : List α) :
    sortLe le' (l.map f) = (sortLe le l).map f := by
  induction l with
  | nil => rfl
  | cons x xs ih => rw [List.map_cons, sortLe, sortLe, ih, insertLe_map hc]

/-! ## Frame-chain resolver (find_prev_frame in dream.py) -/

/-- Suffix of the generator's fixed-name output image (`output.png`). -/
def IMG_EXT : List Char := ".png".toList

/-- Suffix of the generator's fixed-name output video (`output.mp4`). -/
def VID_EXT : List Char := ".mp4".toList

/-- `pathlib.glob` match for the pattern built from the output name, a `*`
wildcard and the extension. -/
def globMatch (output_name ext name : List Char) : Bool :=
  hasPre name output_name && hasSuf (name.drop output_name.length) ext

/-- One character of the extension pattern: the extension string is spliced
into the regex unescaped, so its `.` is a wildcard matching any character
except a newline, while every other character matches literally. -/
def reChar (p c : Char) : Bool := if p = '.' then !(c = '\n') else p = c

/-- Match of the (unescaped) extension pattern against a prefix of the
remaining text; the name may continue afterwards, as `re.match` does not
anchor the end. -/
def reLit : List Char → List Char → Bool
  | [], _ => true
  | _ :: _, [] => false
  | p :: ps, c :: cs => reChar p c && reLit ps cs

/-- Greedy matching with backtracking of `(?P<idx>\d+)` followed by the
extension pattern: the digit-run length is tried longest first, down to one
digit. -/
def digitsBacktrack (ext rest : List Char) : Nat → Option Nat
  | 0 => none
  | k + 1 =>
    if reLit ext (rest.drop (k + 1)) then some (natOfDigits (rest.take (k + 1)))
    else digitsBacktrack ext rest k

/-- Index extraction from an artifact name via `re.match` against the regex
built by raw string concatenation `output_name + r'(?P<idx>\d+)' + ext`
(dream.py lines 89 and 104): the name must start with the output name and
continue with at least one digit; the extension is spliced in unescaped, so
its leading `.` matches any character and the greedy digit run backtracks. -/
def artifact_index (output_name ext name : List Char) : Option Nat :=
  if hasPre name output_name then
    digitsBacktrack ext (name.drop output_name.length)
      ((name.drop output_name.length).takeWhile Char.isDigit).length
  else none

/-- Python `str()` of an optional int, as interpolated into the result path. -/
def pyStrOptNat : Option Nat → List Char
  | some n => natToDigits n
  | none => "None".toList

/-- Python `sorted` on a list of optional ints: lists of at most one element
need no comparison; otherwise comparing `None` with anything raises
`TypeError`; an all-int list is sorted ascending. -/
def pySortedOpt (l : List (Option Nat)) : Except Unit (List (Option Nat)) :=
  if l.length ≤ 1 then .ok l
  else if l.any (fun o => o.isNone) then .error ()
  else .ok (sortLe (fun a b => decide (a.getD 0 ≤ b.getD 0)) l)

/-- CPython `bisect.bisect_left` on a list of optional ints, fuelled: each
probe compares `a[mid] < x`, which raises `TypeError` when the probed element
is `None`. -/
def bisectLeftAux (a : List (Option Nat)) (x : Nat) : Nat → Nat → Nat → Except Unit Nat
  | 0, lo, _ => .ok lo
  | fuel + 1, lo, hi =>
    if lo < hi then
      match a.getD ((lo + hi) / 2) none with
      | none => .error ()
      | some v =>
        if v < x then bisectLeftAux a x fuel ((lo + hi) / 2 + 1) hi
        else bisectLeftAux a x fuel lo ((lo + hi) / 2)
    else .ok lo

/-- `bisect.bisect_left(a, x)` over the whole list. -/
def bisectLeft (a : List (Option Nat)) (x : Nat) : Except Unit Nat :=
  bisectLeftAux a x a.length 0 a.length

/-- The canonical image artifact name for a step index. -/
def mkImgName (output_name : List Char) (k : Nat) : List Char :=
  output_name ++ natToDigits k ++ IMG_EXT

/-- `find_prev_frame(curr_idx, output_name, output_folder)`: glob the folder
listing for images, parse each index, sort, and binary-search for the
greatest index strictly below `curr_idx`, rebuilding the artifact path from
that index. Each step may raise. -/
def find_prev_frame (curr_idx : Nat) (output_name : List Char)
    (files : List (List Char)) : Except Unit (Option (List Char)) :=
  let img_paths := files.filter (fun nm => globMatch output_name IMG_EXT nm)
  match pySortedOpt (img_paths.map (fun nm => artifact_index output_name IMG_EXT nm)) with
  | .error e => .error e
  | .ok img_indices =>
    match bisectLeft img_indices curr_idx with
    | .error e => .error e
    | .ok pos =>
      if pos = 0 then .ok none
      else .ok (some (output_name ++ pyStrOptNat (img_indices.getD (pos - 1) none) ++ IMG_EXT))

/-! ## Correctness of the resolver's search -/

theorem getD_map_some (l : List Nat) (i : Nat) (h : i < l.length) :
    (l.map some).getD i none = some (l.getD i 0) := by
  rw [List.getD_eq_getElem _ _ (by simpa using h), List.getD_eq_getElem l 0 h]
  simp

theorem pairwise_le_getD {keys : List Nat} (hs : keys.Pairwise (fun a b => a ≤ b))
    {i j : Nat} (hij : i ≤ j) (hj : j < keys.length) :
    keys.getD i 0 ≤ keys.getD j 0 := by
  rcases Nat.eq_or_lt_of_le hij with rfl | hlt
  · exact le_rfl
  · rw [List.getD_eq_getElem keys 0 (by omega), List.getD_eq_getElem keys 0 hj]
    exact List.pairwise_iff_getElem.mp hs i j (by omega) hj hlt

theorem bisectLeftAux_spec {keys : List Nat} (hs : keys.Pairwise (fun a b => a ≤ b)) (x : Nat) :
    ∀ fuel lo hi, lo ≤ hi → hi ≤ keys.length → hi - lo ≤ fuel →
      (∀ i, i < lo → keys.getD i 0 < x) →
      (∀ i, hi ≤ i → i < keys.length → x ≤ keys.getD i 0) →
      ∃ r, bisectLeftAux (keys.map some) x fuel lo hi = .ok r ∧ lo ≤ r ∧ r ≤ hi ∧
        (∀ i, i < r → keys.getD i 0 < x) ∧
        (∀ i, r ≤ i → i < keys.length → x ≤ keys.getD i 0) := by
  intro fuel
  induction fuel with
  | zero =>
    intro lo hi h1 h2 h3 h4 h5
    have h0 : lo = hi := by omega
    subst h0
    exact ⟨lo, rfl, le_rfl, le_rfl, h4, h5⟩
  | succ fuel ih =>
    intro lo hi h1 h2 h3 h4 h5
    by_cases hlh : lo < hi
    · have hmid1 : lo ≤ (lo + hi) / 2 := by omega
      have hmid2 : (lo + hi) / 2 < hi := by omega
      have hmidlen : (lo + hi) / 2 < keys.length := by omega
      have hprobe := getD_map_some keys ((lo + hi) / 2) hmidlen
      simp only [bisectLeftAux, if_pos hlh, hprobe]
      by_cases hv : keys.getD ((lo + hi) / 2) 0 < x
      · rw [if_pos hv]
        have h4' : ∀ i, i < (lo + hi) / 2 + 1 → keys.getD i 0 < x := by
          intro i hi2
          by_cases hilo : i < lo
          · exact h4 i hilo
          · have hle : keys.getD i 0 ≤ keys.getD ((lo + hi) / 2) 0 :=
              pairwise_le_getD hs (by omega) hmidlen
            omega
        obtain ⟨r, hok, hr1, hr2, hr3, hr4⟩ :=
          ih ((lo + hi) / 2 + 1) hi (by omega) h2 (by omega) h4' h5
        exact ⟨r, hok, by omega, hr2, hr3, hr4⟩
      · rw [if_neg hv]
        have h5' : ∀ i, (lo + hi) / 2 ≤ i → i < keys.length → x ≤ keys.getD i 0 := by
          intro i hi2 hi3
          have hle : keys.getD ((lo + hi) / 2) 0 ≤ keys.getD i 0 := pairwise_le_getD hs hi2 hi3
          omega
        obtain ⟨r, hok, hr1, hr2, hr3, hr4⟩ :=
          ih lo ((lo + hi) / 2) (by omega) (by omega) (by omega) h4 h5'
        exact ⟨r, hok, hr1, by omega, hr3, hr4⟩
    · have h0 : lo = hi := by omega
      subst h0
      rw [bisectLeftAux, if_neg hlh]
      exact ⟨lo, rfl, le_rfl, le_rfl, h4, h5⟩

theorem pySortedOpt_map_some (keys : List Nat) :
    pySortedOpt (keys.map some) =
      .ok ((sortLe (fun a b => decide (a ≤ b)) keys).map some) := by
  unfold pySortedOpt
  by_cases hlen : (keys.map some).length ≤ 1
  · rw [if_pos hlen]
    cases keys with
    | nil => rfl
    | cons k ks =>
      cases ks with
      | nil => rfl
      | cons k2 ks2 => simp at hlen
  · rw [if_neg hlen]
    have hany : ¬ ((keys.map some).any (fun o => o.isNone) = true) := by
      simp
    rw [if_neg hany,
      @sortLe_map Nat (Option Nat) some (fun a b => decide (a ≤ b))
        (fun a b => decide (a.getD 0 ≤ b.getD 0)) (fun a b => rfl) keys]

theorem reLit_refl (l : List Char) : reLit l l = true := by
  induction l with
  | nil => rfl
  | cons p ps ih =>
    show (reChar p p && reLit ps ps) = true
    rw [ih, Bool.and_true]
    unfold reChar
    by_cases hp : p = '.'
    · rw [if_pos hp]
      subst hp
      decide
    · rw [if_neg hp]
      simp

theorem artifact_index_mk (oname ext : List Char) (k : Nat)
    (hext : ∃ e es, ext = e :: es ∧ e.isDigit = false) :
    artifact_index oname ext (oname ++ natToDigits k ++ ext) = some k := by
  obtain ⟨e, es, hexteq, he⟩ := hext
  have hp : hasPre (oname ++ natToDigits k ++ ext) oname = true := by
    rw [List.append_assoc]
    exact hasPre_append _ _
  unfold artifact_index
  rw [if_pos hp, List.append_assoc, List.drop_left]
  have htw : (natToDigits k ++ ext).takeWhile Char.isDigit = natToDigits k := by
    rw [takeWhile_all_app ext (natToDigits_all_digit k), hexteq,
      List.takeWhile_cons_of_neg (by simp [he]), List.append_nil]
  rw [htw]
  cases hd : (natToDigits k).length with
  | zero => exact absurd (List.eq_nil_of_length_eq_zero hd) (natToDigits_ne_nil k)
  | succ n =>
    have hdrop : (natToDigits k ++ ext).drop (n + 1) = ext := by
      rw [← hd, List.drop_left]
    have htake : (natToDigits k ++ ext).take (n + 1) = natToDigits k := by
      rw [← hd, List.take_left]
    rw [digitsBacktrack, hdrop, htake, if_pos (reLit_refl ext), natToDigits_roundtrip]

theorem globMatch_mk (oname ext : List Char) (k : Nat) :
    globMatch oname ext (oname ++ natToDigits k ++ ext) = true := by
  have h1 : hasPre (oname ++ (natToDigits k ++ ext)) oname = true := hasPre_append _ _
  have h2 : (oname ++ (natToDigits k ++ ext)).drop oname.length = natToDigits k ++ ext :=
    List.drop_left _ _
  unfold globMatch
  rw [List.append_assoc, h1, h2, hasSuf_append]
  rfl

/-- C2: on a folder whose image artifacts are the canonical names for the
index set `S`, `find_prev_frame` returns the artifact path for the greatest
element of `S` strictly below the step index, and `None` when no element of
`S` is below it. -/
theorem c2_find_prev_frame (oname : List Char) (S : List Nat) (curr : Nat)
    (files : List (List Char)) (hf : files = S.map (mkImgName oname)) :
    ((∀ k ∈ S, ¬ k < curr) → find_prev_frame curr oname files = Except.ok none) ∧
    (∀ m, m ∈ S → m < curr → (∀ k ∈ S, k < curr → k ≤ m) →
      find_prev_frame curr oname files = Except.ok (some (mkImgName oname m))) := by
  subst hf
  have hext : ∃ e es, IMG_EXT = e :: es ∧ e.isDigit = false :=
    ⟨'.', "png".toList, rfl, by decide⟩
  have hfil : (S.map (mkImgName oname)).filter (fun nm => globMatch oname IMG_EXT nm) =
      S.map (mkImgName oname) := by
    apply List.filter_eq_self.mpr
    intro nm hnm
    obtain ⟨k, _, rfl⟩ := List.mem_map.mp hnm
    exact globMatch_mk oname IMG_EXT k
  have hmap : (S.map (mkImgName oname)).map (fun nm => artifact_index oname IMG_EXT nm) =
      S.map some := by
    rw [List.map_map]
    apply List.map_congr_left
    intro k _
    exact artifact_index_mk oname IMG_EXT k hext
  have hsorted' : (sortLe (fun a b => decide (a ≤ b)) S).Pairwise
      (fun a b => (fun a b => decide (a ≤ b)) a b = true) :=
    sortLe_pairwise (by intro a b; simp; omega)
      (by intro a b c h1 h2; simp at h1 h2 ⊢; omega) S
  have hsorted : (sortLe (fun a b => decide (a ≤ b)) S).Pairwise (fun a b => a ≤ b) := by
    refine hsorted'.imp ?_
    intro a b hab
    simpa using hab
  have hperm : List.Perm (sortLe (fun a b => decide (a ≤ b)) S) S :=
    sortLe_perm _ S
  have hlenmap : ((sortLe (fun a b => decide (a ≤ b)) S).map some).length =
      (sortLe (fun a b => decide (a ≤ b)) S).length := List.length_map _ _
  obtain ⟨r, hok, _, hrle, hlt, hge⟩ :=
    bisectLeftAux_spec hsorted curr (sortLe (fun a b => decide (a ≤ b)) S).length
      0 (sortLe (fun a b => decide (a ≤ b)) S).length (Nat.zero_le _) le_rfl
      (by omega)
      (fun i hi => absurd hi (Nat.not_lt_zero i))
      (fun i h1 h2 => absurd (lt_of_le_of_lt h1 h2) (lt_irrefl _))
  have hbis : bisectLeft ((sortLe (fun a b => decide (a ≤ b)) S).map some) curr =
      Except.ok r := by
    rw [bisectLeft, hlenmap]
    exact hok
  have hfpf : find_prev_frame curr oname (S.map (mkImgName oname)) =
      (if r = 0 then Except.ok none
       else Except.ok (some (oname ++
         pyStrOptNat (((sortLe (fun a b => decide (a ≤ b)) S).map some).getD (r - 1) none) ++
         IMG_EXT))) := by
    simp only [find_prev_frame]
    rw [hfil, hmap, pySortedOpt_map_some]
    dsimp only
    rw [hbis]
  constructor
  · intro hnone
    have hr : r = 0 := by
      by_contra hr
      have h0r : 0 < r := Nat.pos_of_ne_zero hr
      have h0len : 0 < (sortLe (fun a b => decide (a ≤ b)) S).length := by omega
      have hval : (sortLe (fun a b => decide (a ≤ b)) S).getD 0 0 < curr := hlt 0 h0r
      have hmem : (sortLe (fun a b => decide (a ≤ b)) S).getD 0 0 ∈
          sortLe (fun a b => decide (a ≤ b)) S := by
        rw [List.getD_eq_getElem _ 0 h0len]
        exact List.getElem_mem h0len
      exact hnone _ (hperm.mem_iff.mp hmem) hval
    rw [hfpf, if_pos hr]
  · intro m hm hmc hmax
    have hmk : m ∈ sortLe (fun a b => decide (a ≤ b)) S := hperm.mem_iff.mpr hm
    obtain ⟨j, hj, hjm⟩ := List.mem_iff_getElem.mp hmk
    have hjD : (sortLe (fun a b => decide (a ≤ b)) S).getD j 0 = m := by
      rw [List.getD_eq_getElem _ 0 hj, hjm]
    have hrne : r ≠ 0 := by
      intro hr
      subst hr
      have hcon := hge j (Nat.zero_le j) hj
      rw [hjD] at hcon
      omega
    have hrpos : 0 < r := Nat.pos_of_ne_zero hrne
    have hrlen' : r - 1 < (sortLe (fun a b => decide (a ≤ b)) S).length := by omega
    have h1 : (sortLe (fun a b => decide (a ≤ b)) S).getD (r - 1) 0 < curr := hlt (r - 1) (by omega)
    have h2 : (sortLe (fun a b => decide (a ≤ b)) S).getD (r - 1) 0 ≤ m := by
      apply hmax
      · rw [List.getD_eq_getElem _ 0 hrlen']
        exact hperm.mem_iff.mp (List.getElem_mem hrlen')
      · exact h1
    have hjr : j < r := by
      by_contra hjr
      have hcon := hge j (by omega) hj
      rw [hjD] at hcon
      omega
    have h3 : m ≤ (sortLe (fun a b => decide (a ≤ b)) S).getD (r - 1) 0 := by
      have hmono := pairwise_le_getD hsorted (i := j) (j := r - 1) (by omega) hrlen'
      rw [hjD] at hmono
      exact hmono
    have heq : (sortLe (fun a b => decide (a ≤ b)) S).getD (r - 1) 0 = m :=
      le_antisymm h2 h3
    rw [hfpf, if_neg hrne, getD_map_some _ _ hrlen', heq]
    rfl

theorem c2_find_prev_frame_witness :
    find_prev_frame 3 "out".toList
        ["out0.png".toList, "out2.png".toList, "out4.png".toList] =
      Except.ok (some "out2.png".toList) ∧
    find_prev_frame 0 "out".toList
        ["out0.png".toList, "out2.png".toList, "out4.png".toList] =
      Except.ok none ∧
    find_prev_frame 5 "out".toList
        ["out0.png".toList, "out2.png".toList, "out4.png".toList] =
      Except.ok (some "out4.png".toList) := by
  refine ⟨?_, ?_, ?_⟩
  · have h := (c2_find_prev_frame "out".toList [0, 2, 4] 3
      ["out0.png".toList, "out2.png".toList, "out4.png".toList] (by decide)).2 2
      (by decide) (by decide) (by decide)
    rw [h]
    rfl
  · exact (c2_find_prev_frame "out".toList [0, 2, 4] 0
      ["out0.png".toList, "out2.png".toList, "out4.png".toList] (by decide)).1 (by decide)
  · have h := (c2_find_prev_frame "out".toList [0, 2, 4] 5
      ["out0.png".toList, "out2.png".toList, "out4.png".toList] (by decide)).2 4
      (by decide) (by decide) (by decide)
    rw [h]
    rfl

theorem find_prev_frame_err_sort {curr : Nat} {oname : List Char} {files : List (List Char)}
    (h : pySortedOpt ((files.filter (fun nm => globMatch oname IMG_EXT nm)).map
      (fun nm => artifact_index oname IMG_EXT nm)) = Except.error ()) :
    find_prev_frame curr oname files = Except.error () := by
  simp only [find_prev_frame]
  rw [h]

theorem find_prev_frame_err_single {curr : Nat} {oname : List Char} {files : List (List Char)}
    (h : pySortedOpt ((files.filter (fun nm => globMatch oname IMG_EXT nm)).map
      (fun nm => artifact_index oname IMG_EXT nm)) = Except.ok [none]) :
    find_prev_frame curr oname files = Except.error () := by
  simp only [find_prev_frame]
  rw [h]
  rfl

/-- C10 counterexample: the folder entry `out1apng.png` matches the image
glob but not the strict pattern `out<digits>.png` (its maximal digit run `1`
is not followed by the literal extension), yet the source regex's unescaped
`.` backtracks and extracts index 1, and the resolver — far from raising —
returns the seed path `out1.png` when resolving step 2: the extraction does
not yield a non-integer placeholder, no sort fails, and a seed is produced. -/
theorem c10_nonstrict_name_yields_seed :
    globMatch "out".toList IMG_EXT "out1apng.png".toList = true ∧
    ("out1apng.png".toList.drop "out".toList.length).takeWhile Char.isDigit ++ IMG_EXT ≠
      "out1apng.png".toList.drop "out".toList.length ∧
    artifact_index "out".toList IMG_EXT "out1apng.png".toList = some 1 ∧
    find_prev_frame 2 "out".toList ["out1apng.png".toList] =
      Except.ok (some "out1.png".toList) :=
  ⟨rfl, by decide, rfl, rfl⟩

/-- C10 (amended): whenever some folder entry matches the image glob but its
index extraction fails (the backtracking regex finds no digit run followed by
the extension pattern — e.g. a name with no digits after the output name),
`find_prev_frame` raises for every step index and never returns a seed; the
sort step itself is what fails whenever at least two entries match the glob
(with exactly one match, the sort of `[None]` succeeds and the `bisect`
comparison raises instead). Glob-matched names outside the strict pattern do
not in general make the resolver raise: the extension's unescaped `.` lets
names such as `out1apng.png` parse to an index and silently produce a seed. -/
theorem c10_resolver_raises_on_malformed (oname : List Char) (files : List (List Char))
    (curr : Nat)
    (h : ∃ nm ∈ files, globMatch oname IMG_EXT nm = true ∧
      artifact_index oname IMG_EXT nm = none) :
    find_prev_frame curr oname files = Except.error () ∧
    (2 ≤ (files.filter (fun nm => globMatch oname IMG_EXT nm)).length →
      pySortedOpt ((files.filter (fun nm => globMatch oname IMG_EXT nm)).map
        (fun nm => artifact_index oname IMG_EXT nm)) = Except.error ()) := by
  obtain ⟨nm, hmem, hglob, hnone⟩ := h
  have hmemG : nm ∈ files.filter (fun nm => globMatch oname IMG_EXT nm) :=
    List.mem_filter.mpr ⟨hmem, hglob⟩
  have hnonemem : (none : Option Nat) ∈
      (files.filter (fun nm => globMatch oname IMG_EXT nm)).map
        (fun nm => artifact_index oname IMG_EXT nm) :=
    List.mem_map.mpr ⟨nm, hmemG, hnone⟩
  by_cases hlen : ((files.filter (fun nm => globMatch oname IMG_EXT nm)).map
      (fun nm => artifact_index oname IMG_EXT nm)).length ≤ 1
  · have hpos : 0 < ((files.filter (fun nm => globMatch oname IMG_EXT nm)).map
        (fun nm => artifact_index oname IMG_EXT nm)).length :=
      List.length_pos.mpr (List.ne_nil_of_mem hnonemem)
    have hone : (files.filter (fun nm => globMatch oname IMG_EXT nm)).map
        (fun nm => artifact_index oname IMG_EXT nm) = [none] := by
      cases hi : (files.filter (fun nm => globMatch oname IMG_EXT nm)).map
          (fun nm => artifact_index oname IMG_EXT nm) with
      | nil => rw [hi] at hpos; cases hpos
      | cons a as =>
        cases as with
        | nil =>
          rw [hi] at hnonemem
          rw [List.mem_singleton] at hnonemem
          rw [← hnonemem]
        | cons b bs =>
          rw [hi] at hlen
          simp at hlen
    refine ⟨?_, ?_⟩
    · apply find_prev_frame_err_single
      rw [hone]
      rfl
    · intro h2
      exfalso
      rw [List.length_map] at hlen
      omega
  · have hsort : pySortedOpt ((files.filter (fun nm => globMatch oname IMG_EXT nm)).map
        (fun nm => artifact_index oname IMG_EXT nm)) = Except.error () := by
      unfold pySortedOpt
      rw [if_neg hlen, if_pos (List.any_eq_true.mpr ⟨none, hnonemem, rfl⟩)]
    exact ⟨find_prev_frame_err_sort hsort, fun _ => hsort⟩

theorem c10_resolver_raises_witness :
    find_prev_frame 7 "out".toList ["out0.png".toList, "outX.png".toList] =
      Except.error () ∧
    (2 ≤ (["out0.png".toList, "outX.png".toList].filter
        (fun nm => globMatch "out".toList IMG_EXT nm)).length →
      pySortedOpt ((["out0.png".toList, "outX.png".toList].filter
        (fun nm => globMatch "out".toList IMG_EXT nm)).map
        (fun nm => artifact_index "out".toList IMG_EXT nm)) = Except.error ()) :=
  c10_resolver_raises_on_malformed "out".toList
    ["out0.png".toList, "outX.png".toList] 7
    ⟨"outX.png".toList, by decide, by decide, by decide⟩

/-! ## Clip assembler (merge_videos and the final glob/sort in main) -/

/-- Observable outcome of `merge_videos`: the manifest contents written to the
temporary file, whether the temporary manifest was unlinked, and whether the
call completed or raised `CalledProcessError`. -/
structure MergeOutcome where
  manifestLines : List (List Char)
  manifestDeleted : Bool
  result : Except Unit Unit

/-- `merge_videos`: writes the manifest (one `file <resolved path>` line per
clip), runs the concat call with `check=True` — so a concat failure raises
before the manifest is unlinked — then unlinks the manifest and, when an
audio path was supplied, runs the audio mux, raising on a nonzero return
code. The two external return statuses are parameters. -/
def merge_videos (resolve : List Char → List Char) (video_list : List (List Char))
    (audioOn concatOk audioOk : Bool) : MergeOutcome :=
  let lines := video_list.map (fun p => "file ".toList ++ resolve p ++ ['\n'])
  if concatOk then
    if audioOn then
      if audioOk then ⟨lines, true, .ok ()⟩
      else ⟨lines, true, .error ()⟩
    else ⟨lines, true, .ok ()⟩
  else ⟨lines, false, .error ()⟩

/-- The final clip collection in `main` (lines 88-90 of dream.py): glob the
folder for `{output_name}*{.mp4}`, and sort by the regex-extracted index —
computing the key raises `AttributeError` when any globbed name fails the
strict pattern. -/
def collectClips (output_name : List Char) (files : List (List Char)) :
    Except Unit (List (List Char)) :=
  if (files.filter (fun nm => globMatch output_name VID_EXT nm)).all
      (fun nm => (artifact_index output_name VID_EXT nm).isSome) then
    .ok (sortLe (fun a b => decide ((artifact_index output_name VID_EXT a).getD 0 ≤
        (artifact_index output_name VID_EXT b).getD 0))
      (files.filter (fun nm => globMatch output_name VID_EXT nm)))
  else .error ()

/-- C6 counterexample: when the concat call fails, `merge_videos` raises
before reaching the unlink, so the temporary manifest file is not deleted —
the cleanup is not unconditional. -/
theorem c6_manifest_kept_on_concat_failure :
    (merge_videos (fun p => p) ["out0.mp4".toList] false false true).manifestDeleted =
      false := rfl

/-- C6 (amended): the temporary manifest is deleted exactly when the concat
call succeeds; on concat failure the exception propagates first and the
manifest file is left behind (deletion is unconditional only with respect to
the later audio-mux step). -/
theorem c6_manifest_deleted_iff_concat_ok (resolve : List Char → List Char)
    (video_list : List (List Char)) (audioOn concatOk audioOk : Bool) :
    (merge_videos resolve video_list audioOn concatOk audioOk).manifestDeleted =
      concatOk := by
  unfold merge_videos
  cases concatOk <;> cases audioOn <;> cases audioOk <;> rfl

/-- C7: the clip assembler sorts the globbed per-step clips strictly
ascending by parsed index, independently of enumeration order, and the
manifest lists exactly the resolved clip paths in that order, one per line. -/
theorem c7_clips_sorted_by_index (oname : List Char) (files : List (List Char))
    (resolve : List Char → List Char) (audioOn concatOk audioOk : Bool)
    (hall : ∀ nm ∈ files.filter (fun nm => globMatch oname VID_EXT nm),
      (artifact_index oname VID_EXT nm).isSome = true)
    (hnd : ((files.filter (fun nm => globMatch oname VID_EXT nm)).map
      (fun nm => (artifact_index oname VID_EXT nm).getD 0)).Nodup) :
    ∃ l', collectClips oname files = Except.ok l' ∧
      List.Perm l' (files.filter (fun nm => globMatch oname VID_EXT nm)) ∧
      l'.Pairwise (fun a b =>
        (artifact_index oname VID_EXT a).getD 0 < (artifact_index oname VID_EXT b).getD 0) ∧
      (merge_videos resolve l' audioOn concatOk audioOk).manifestLines =
        l'.map (fun p => "file ".toList ++ resolve p ++ ['\n']) ∧
      (∀ files₂, List.Perm (files₂.filter (fun nm => globMatch oname VID_EXT nm))
          (files.filter (fun nm => globMatch oname VID_EXT nm)) →
        collectClips oname files₂ = Except.ok l') := by
  have htot : ∀ a b : List Char,
      ((fun a b => decide ((artifact_index oname VID_EXT a).getD 0 ≤
        (artifact_index oname VID_EXT b).getD 0)) a b ||
       (fun a b => decide ((artifact_index oname VID_EXT a).getD 0 ≤
        (artifact_index oname VID_EXT b).getD 0)) b a) = true := by
    intro a b
    simp only [Bool.or_eq_true, decide_eq_true_eq]
    omega
  have htr : ∀ a b c : List Char,
      (fun a b => decide ((artifact_index oname VID_EXT a).getD 0 ≤
        (artifact_index oname VID_EXT b).getD 0)) a b = true →
      (fun a b => decide ((artifact_index oname VID_EXT a).getD 0 ≤
        (artifact_index oname VID_EXT b).getD 0)) b c = true →
      (fun a b => decide ((artifact_index oname VID_EXT a).getD 0 ≤
        (artifact_index oname VID_EXT b).getD 0)) a c = true := by
    intro a b c h1 h2
    simp only [decide_eq_true_eq] at h1 h2 ⊢
    omega
  have hstrict : ∀ cl : List (List Char),
      List.Perm cl (files.filter (fun nm => globMatch oname VID_EXT nm)) →
      (sortLe (fun a b => decide ((artifact_index oname VID_EXT a).getD 0 ≤
          (artifact_index oname VID_EXT b).getD 0)) cl).Pairwise (fun a b =>
        (artifact_index oname VID_EXT a).getD 0 < (artifact_index oname VID_EXT b).getD 0) := by
    intro cl hcl
    have hsorted : (sortLe (fun a b => decide ((artifact_index oname VID_EXT a).getD 0 ≤
        (artifact_index oname VID_EXT b).getD 0)) cl).Pairwise (fun a b =>
        (artifact_index oname VID_EXT a).getD 0 ≤ (artifact_index oname VID_EXT b).getD 0) := by
      refine (sortLe_pairwise htot htr cl).imp ?_
      intro a b hab
      simpa using hab
    have hpermsort : List.Perm (sortLe (fun a b => decide ((artifact_index oname VID_EXT a).getD 0 ≤
        (artifact_index oname VID_EXT b).getD 0)) cl)
        (files.filter (fun nm => globMatch oname VID_EXT nm)) :=
      (sortLe_perm _ cl).trans hcl
    have hndmap : ((sortLe (fun a b => decide ((artifact_index oname VID_EXT a).getD 0 ≤
        (artifact_index oname VID_EXT b).getD 0)) cl).map
        (fun nm => (artifact_index oname VID_EXT nm).getD 0)).Nodup :=
      (List.Perm.nodup_iff (hpermsort.map _)).mpr hnd
    have hne : (sortLe (fun a b => decide ((artifact_index oname VID_EXT a).getD 0 ≤
        (artifact_index oname VID_EXT b).getD 0)) cl).Pairwise (fun a b =>
        (artifact_index oname VID_EXT a).getD 0 ≠ (artifact_index oname VID_EXT b).getD 0) :=
      List.pairwise_map.mp hndmap
    exact (hsorted.and hne).imp (fun h => lt_of_le_of_ne h.1 h.2)
  have hcompute : ∀ gs : List (List Char),
      (∀ nm ∈ gs.filter (fun nm => globMatch oname VID_EXT nm),
        (artifact_index oname VID_EXT nm).isSome = true) →
      collectClips oname gs = Except.ok (sortLe (fun a b =>
        decide ((artifact_index oname VID_EXT a).getD 0 ≤
          (artifact_index oname VID_EXT b).getD 0))
        (gs.filter (fun nm => globMatch oname VID_EXT nm))) := by
    intro gs hgs
    unfold collectClips
    rw [if_pos (List.all_eq_true.mpr hgs)]
  refine ⟨sortLe (fun a b => decide ((artifact_index oname VID_EXT a).getD 0 ≤
      (artifact_index oname VID_EXT b).getD 0))
      (files.filter (fun nm => globMatch oname VID_EXT nm)),
    hcompute files hall, sortLe_perm _ _, hstrict _ (List.Perm.refl _), ?_, ?_⟩
  · unfold merge_videos
    cases concatOk <;> cases audioOn <;> cases audioOk <;> rfl
  · intro files₂ hp2
    have hall₂ : ∀ nm ∈ files₂.filter (fun nm => globMatch oname VID_EXT nm),
        (artifact_index oname VID_EXT nm).isSome = true :=
      fun nm hnm => hall nm (hp2.mem_iff.mp hnm)
    rw [hcompute files₂ hall₂]
    congr 1
    haveI : IsAntisymm (List Char) (fun a b =>
        (artifact_index oname VID_EXT a).getD 0 < (artifact_index oname VID_EXT b).getD 0) :=
      ⟨fun a b h1 h2 => absurd (lt_trans h1 h2) (lt_irrefl _)⟩
    refine List.eq_of_perm_of_sorted ?_ (hstrict _ hp2) (hstrict _ (List.Perm.refl _))
    exact ((sortLe_perm _ _).trans hp2).trans (sortLe_perm _ _).symm

theorem c7_clips_sorted_witness :
    collectClips "out".toList
        ["out2.mp4".toList, "out0.mp4".toList, "out1.mp4".toList] =
      Except.ok ["out0.mp4".toList, "out1.mp4".toList, "out2.mp4".toList] ∧
    (∃ l', collectClips "out".toList
        ["out2.mp4".toList, "out0.mp4".toList, "out1.mp4".toList] = Except.ok l' ∧
      List.Perm l' (["out2.mp4".toList, "out0.mp4".toList, "out1.mp4".toList].filter
        (fun nm => globMatch "out".toList VID_EXT nm)) ∧
      l'.Pairwise (fun a b =>
        (artifact_index "out".toList VID_EXT a).getD 0 <
          (artifact_index "out".toList VID_EXT b).getD 0) ∧
      (merge_videos (fun p => p) l' false true true).manifestLines =
        l'.map (fun p => "file ".toList ++ p ++ ['\n']) ∧
      (∀ files₂, List.Perm (files₂.filter (fun nm => globMatch "out".toList VID_EXT nm))
          (["out2.mp4".toList, "out0.mp4".toList, "out1.mp4".toList].filter
            (fun nm => globMatch "out".toList VID_EXT nm)) →
        collectClips "out".toList files₂ = Except.ok l')) :=
  ⟨rfl, c7_clips_sorted_by_index "out".toList
    ["out2.mp4".toList, "out0.mp4".toList, "out1.mp4".toList]
    (fun p => p) false true true (by decide) (by decide)⟩

/-! ## Script interpreter (main in dream.py) -/

/-- One generator execution: the enumerate index of the script line that
triggered it and the full command line passed to the shell. -/
structure JobExec where
  idx : Nat
  cmd : List Char
deriving DecidableEq

/-- How the process ends: a `return` from `main` with an exit code, or an
uncaught exception. -/
inductive MainOutcome
  | exited (code : Int)
  | raised
deriving DecidableEq

/-- Observable result of a run of `main`. -/
structure MainResult where
  outcome : MainOutcome
  execs : List JobExec
  errMsg : Option (List Char)
deriving DecidableEq

/-- Mutable state threaded through the command loop of `main`. -/
structure LoopState where
  cmd_root : List Char
  args : List Char
  img_dst : Option (List Char)
  files : List (List Char)
  execs : List JobExec
deriving DecidableEq

/-- How the command loop ends: all lines processed, a job returned a nonzero
code, or an exception propagated. -/
inductive LoopExit
  | done
  | failed (idx : Nat) (ret : Int) (cmd : List Char)
  | exc
deriving DecidableEq

/-- Characters before the next occurrence of `sep`. -/
def takeUntilSub (sep : List Char) : List Char → List Char
  | [] => []
  | c :: cs => if hasPre (c :: cs) sep then [] else c :: takeUntilSub sep cs

/-- `line.split("GLOBAL:")[1]` for a line starting with `GLOBAL:`: the text
after the marker, up to any next occurrence of the marker. -/
def globalPayload (line : List Char) : List Char :=
  takeUntilSub "GLOBAL:".toList (line.drop 7)

/-- The failure diagnostic printed by `main` when a job returns nonzero:
`this returned error {ret}: {full_cmd}`. -/
def failMsg (ret : Int) (cmd : List Char) : List Char :=
  "this returned error ".toList ++ pyStrInt ret ++ ": ".toList ++ cmd

/-- The command loop of `main` (lines 45-82 of dream.py), one script line at
a time: strip the line; skip comments and blanks; a `GLOBAL:` line replaces
`cmd_root` and then falls through (there is no `continue`); append the line
to `args`; a trailing backslash accumulates; otherwise resolve a seed frame
when none is held, append the `-ii` flag when one is held, run the generator
(its exit status is `retOf` applied to the number of commands run so far),
abort on nonzero, and on success record the copied image/video artifacts and
clear `args`. -/
def mainLoop (cmd_base oname ofolder : List Char) (retOf : Nat → Int) :
    List (List Char) → Nat → LoopState → LoopState × LoopExit
  | [], _, st => (st, .done)
  | l :: rest, idx, st =>
    let line := pyStrip l
    if hasPre line "#".toList || line.isEmpty then
      mainLoop cmd_base oname ofolder retOf rest (idx + 1) st
    else
      let st1 := if hasPre line "GLOBAL:".toList then
          { st with cmd_root := cmd_base ++ globalPayload line } else st
      let args1 := st1.args ++ ' ' :: line
      if line.getLast? = some '\\' then
        mainLoop cmd_base oname ofolder retOf rest (idx + 1) { st1 with args := args1.dropLast }
      else
        match (if st1.img_dst.isNone then
            (find_prev_frame idx oname st1.files).map
              (fun o => o.map (fun nm => ofolder ++ '/' :: nm))
          else Except.ok st1.img_dst) with
        | .error _ => (st1, .exc)
        | .ok img0 =>
          let args2 := match img0 with
            | some p => args1 ++ " -ii ".toList ++ p
            | none => args1
          let full_cmd := st1.cmd_root ++ args2
          let ret := retOf st1.execs.length
          let st2 := { st1 with execs := st1.execs ++ [⟨idx, full_cmd⟩] }
          if ret = 0 then
            mainLoop cmd_base oname ofolder retOf rest (idx + 1)
              { st2 with
                img_dst := some (ofolder ++ '/' :: (oname ++ natToDigits idx ++ IMG_EXT)),
                files :=
                  (let f2 := if (oname ++ natToDigits idx ++ IMG_EXT) ∈ st2.files
                      then st2.files else st2.files ++ [oname ++ natToDigits idx ++ IMG_EXT]
                   if (oname ++ natToDigits idx ++ VID_EXT) ∈ f2
                      then f2 else f2 ++ [oname ++ natToDigits idx ++ VID_EXT]),
                args := [] }
          else (st2, .failed idx ret full_cmd)

/-- The inputs of a run of `main`: CLI arguments, filesystem state, and the
exit statuses of the external calls. -/
structure MainEnv where
  gen_script_path : List Char
  ofolder : List Char
  oname : List Char
  folderExistsDir : Bool
  force : Bool
  scriptLines : List (List Char)
  initialFiles : List (List Char)
  retOf : Nat → Int
  resolve : List Char → List Char
  audioOn : Bool
  concatOk : Bool
  audioOk : Bool

/-- `main` (dream.py): refuse an existing output folder unless forced
(exit 1), run the command loop (a failing job prints the diagnostic and
exits 2), then delete any pre-existing final video, glob and sort the per-step
clips, and merge them (exceptions from the resolver, the clip sort or the
merge propagate out of `main`). -/
def runMain (e : MainEnv) : MainResult :=
  if e.folderExistsDir && !e.force then
    ⟨.exited 1, [], none⟩
  else
    match mainLoop ("python ".toList ++ e.gen_script_path ++ " -vid ".toList)
        e.oname e.ofolder e.retOf e.scriptLines 0
        ⟨"python ".toList ++ e.gen_script_path ++ " -vid ".toList, [], none,
          e.initialFiles, []⟩ with
    | (st, .failed _ ret cmd) => ⟨.exited 2, st.execs, some (failMsg ret cmd)⟩
    | (st, .exc) => ⟨.raised, st.execs, none⟩
    | (st, .done) =>
      match collectClips e.oname (st.files.filter (fun nm => !(nm = e.oname ++ VID_EXT))) with
      | .error _ => ⟨.raised, st.execs, none⟩
      | .ok clips =>
        match (merge_videos e.resolve clips e.audioOn e.concatOk e.audioOk).result with
        | .error _ => ⟨.raised, st.execs, none⟩
        | .ok _ => ⟨.exited 0, st.execs, none⟩

/-- Run of the spec's end-to-end script `"5 foo\nGLOBAL: --bar\n3 baz\n"`
against an empty output folder, every external call succeeding. -/
def envEndToEnd : MainEnv :=
  { gen_script_path := "generate.py".toList, ofolder := "out".toList,
    oname := "out".toList, folderExistsDir := false, force := false,
    scriptLines := ["5 foo\n".toList, "GLOBAL: --bar\n".toList, "3 baz\n".toList],
    initialFiles := [], retOf := fun _ => 0, resolve := fun p => p,
    audioOn := false, concatOk := true, audioOk := true }

/-- C1 (code bug): on the script `"5 foo\nGLOBAL: --bar\n3 baz\n"` against an
empty output folder, the interpreter executes THREE generator invocations,
not two: the `GLOBAL:` branch updates the global options but lacks a
`continue`, so the directive line falls through and is itself executed as a
job — with the literal text `GLOBAL: --bar` in its arguments — and the
`3 baz` job is then seeded from that pseudo-job's image `out1.png` instead
of job 0's image. -/
theorem c1_global_line_executes_job :
    (runMain envEndToEnd).execs =
      [⟨0, "python generate.py -vid  5 foo".toList⟩,
       ⟨1, "python generate.py -vid  --bar GLOBAL: --bar -ii out/out0.png".toList⟩,
       ⟨2, "python generate.py -vid  --bar 3 baz -ii out/out1.png".toList⟩] ∧
    (runMain envEndToEnd).outcome = MainOutcome.exited 0 :=
  ⟨rfl, rfl⟩

/-- Failing run of the one-line script `"3 xx\n"`: the only job returns 1. -/
def envFailA : MainEnv :=
  { gen_script_path := "generate.py".toList, ofolder := "out".toList,
    oname := "out".toList, folderExistsDir := false, force := false,
    scriptLines := ["3 xx\n".toList], initialFiles := [], retOf := fun _ => 1,
    resolve := fun p => p, audioOn := false, concatOk := true, audioOk := true }

/-- The same failing job preceded by a comment line, so it carries line
index 1 instead of 0. -/
def envFailB : MainEnv := { envFailA with scriptLines := ["# c\n".toList, "3 xx\n".toList] }

/-- C9 counterexample: two runs whose failing jobs have different indices
(0 and 1) print byte-identical diagnostics — `this returned error 1: …` names
the exit status and the invocation but not the failing index, so the run does
not report the failing job's index as claimed. -/
theorem c9_error_report_lacks_index :
    (runMain envFailA).errMsg = (runMain envFailB).errMsg ∧
    (runMain envFailA).execs.map JobExec.idx = [0] ∧
    (runMain envFailB).execs.map JobExec.idx = [1] ∧
    (runMain envFailA).outcome = MainOutcome.exited 2 ∧
    (runMain envFailB).outcome = MainOutcome.exited 2 :=
  ⟨rfl, rfl, rfl, rfl, rfl⟩

/-! ## Well-formed artifact folders -/

/-- A folder entry produced by the pipeline itself: a canonical image or
video artifact name. -/
def WfArtifact (oname nm : List Char) : Prop :=
  ∃ k, nm = oname ++ natToDigits k ++ IMG_EXT ∨ nm = oname ++ natToDigits k ++ VID_EXT

theorem hasSuf_append_last_ne {a b : List Char} {x y : Char} (h : ¬ x = y) :
    hasSuf (a ++ [x]) (b ++ [y]) = false := by
  unfold hasSuf
  rw [List.reverse_append, List.reverse_append]
  show hasPre (x :: a.reverse) (y :: b.reverse) = false
  simp [hasPre, h]

theorem globMatch_img_of_vid (oname d : List Char) :
    globMatch oname IMG_EXT (oname ++ d ++ VID_EXT) = false := by
  unfold globMatch
  rw [List.append_assoc, List.drop_left]
  have h : hasSuf (d ++ VID_EXT) IMG_EXT = false := by
    have e1 : d ++ VID_EXT = (d ++ ".mp".toList) ++ ['4'] := by
      rw [List.append_assoc]; rfl
    have e2 : IMG_EXT = ".pn".toList ++ ['g'] := rfl
    rw [e1, e2]
    exact hasSuf_append_last_ne (by decide)
  rw [h, Bool.and_false]

theorem globMatch_vid_of_img (oname d : List Char) :
    globMatch oname VID_EXT (oname ++ d ++ IMG_EXT) = false := by
  unfold globMatch
  rw [List.append_assoc, List.drop_left]
  have h : hasSuf (d ++ IMG_EXT) VID_EXT = false := by
    have e1 : d ++ IMG_EXT = (d ++ ".pn".toList) ++ ['g'] := by
      rw [List.append_assoc]; rfl
    have e2 : VID_EXT = ".mp".toList ++ ['4'] := rfl
    rw [e1, e2]
    exact hasSuf_append_last_ne (by decide)
  rw [h, Bool.and_false]

theorem sortNat_pairwise (S : List Nat) :
    (sortLe (fun a b => decide (a ≤ b)) S).Pairwise (fun a b => a ≤ b) := by
  have h := @sortLe_pairwise Nat (fun a b : Nat => decide (a ≤ b))
    (by intro a b; simp; omega)
    (by intro a b c h1 h2; simp at h1 h2 ⊢; omega) S
  refine h.imp ?_
  intro a b hab
  simpa using hab

theorem all_some_exists_keys :
    ∀ l : List (Option Nat), (∀ o ∈ l, o.isSome = true) → ∃ ks : List Nat, l = ks.map some := by
  intro l
  induction l with
  | nil => intro _; exact ⟨[], rfl⟩
  | cons o os ih =>
    intro h
    obtain ⟨k, hk⟩ := Option.isSome_iff_exists.mp (h o (List.mem_cons_self _ _))
    obtain ⟨ks, hks⟩ := ih (fun x hx => h x (List.mem_cons_of_mem _ hx))
    exact ⟨k :: ks, by rw [hks, hk]; rfl⟩

theorem find_prev_frame_ok_of_wf (curr : Nat) (oname : List Char)
    (files : List (List Char)) (hwf : ∀ nm ∈ files, WfArtifact oname nm) :
    ∃ o, find_prev_frame curr oname files = Except.ok o := by
  have hsome : ∀ nm ∈ files.filter (fun nm => globMatch oname IMG_EXT nm),
      ((fun nm => artifact_index oname IMG_EXT nm) nm).isSome = true := by
    intro nm hnm
    dsimp only
    obtain ⟨hmem, hglob⟩ := List.mem_filter.mp hnm
    obtain ⟨k, hk | hk⟩ := hwf nm hmem
    · subst hk
      rw [artifact_index_mk oname IMG_EXT k ⟨'.', "png".toList, rfl, by decide⟩]
      rfl
    · subst hk
      rw [globMatch_img_of_vid] at hglob
      cases hglob
  obtain ⟨ks, hks⟩ := all_some_exists_keys
    ((files.filter (fun nm => globMatch oname IMG_EXT nm)).map
      (fun nm => artifact_index oname IMG_EXT nm))
    (by
      intro o ho
      obtain ⟨nm, hnm, rfl⟩ := List.mem_map.mp ho
      exact hsome nm hnm)
  simp only [find_prev_frame]
  rw [hks, pySortedOpt_map_some]
  obtain ⟨r, hok, _, _, _, _⟩ :=
    bisectLeftAux_spec (sortNat_pairwise ks) curr
      (sortLe (fun a b => decide (a ≤ b)) ks).length 0
      (sortLe (fun a b => decide (a ≤ b)) ks).length (Nat.zero_le _) le_rfl (by omega)
      (fun i hi => absurd hi (Nat.not_lt_zero i))
      (fun i h1 h2 => absurd (lt_of_le_of_lt h1 h2) (lt_irrefl _))
  have hbis : bisectLeft ((sortLe (fun a b => decide (a ≤ b)) ks).map some) curr =
      Except.ok r := by
    rw [bisectLeft, List.length_map]
    exact hok
  dsimp only
  rw [hbis]
  dsimp only
  by_cases hr : r = 0
  · rw [if_pos hr]; exact ⟨none, rfl⟩
  · rw [if_neg hr]; exact ⟨_, rfl⟩

theorem collectClips_ok_of_wf (oname : List Char) (files : List (List Char))
    (hwf : ∀ nm ∈ files, WfArtifact oname nm) :
    ∃ l, collectClips oname files = Except.ok l := by
  have hsome : ∀ nm ∈ files.filter (fun nm => globMatch oname VID_EXT nm),
      ((fun nm => (artifact_index oname VID_EXT nm).isSome) nm) = true := by
    intro nm hnm
    dsimp only
    obtain ⟨hmem, hglob⟩ := List.mem_filter.mp hnm
    obtain ⟨k, hk | hk⟩ := hwf nm hmem
    · subst hk
      rw [globMatch_vid_of_img] at hglob
      cases hglob
    · subst hk
      rw [artifact_index_mk oname VID_EXT k ⟨'.', "mp4".toList, rfl, by decide⟩]
      rfl
  unfold collectClips
  rw [if_pos (List.all_eq_true.mpr hsome)]
  exact ⟨_, rfl⟩

/-- Invariants established by a run of the command loop from state `st`:
the executions extend `st`'s; a `failed` exit names the last execution, its
nonzero status and diagnostic data, with all earlier statuses zero; a
non-`failed` exit means every execution succeeded; and from a well-formed
folder with all statuses zero the loop completes with a well-formed folder. -/
def LoopConcl (retOf : Nat → Int) (oname : List Char) (st : LoopState)
    (out : LoopState × LoopExit) : Prop :=
  (∃ tail, out.1.execs = st.execs ++ tail) ∧
  (∀ i ret cmd, out.2 = LoopExit.failed i ret cmd →
    out.1.execs.getLast? = some ⟨i, cmd⟩ ∧
    ret = retOf (out.1.execs.length - 1) ∧ ret ≠ 0 ∧
    ∀ j, j < out.1.execs.length - 1 → retOf j = 0) ∧
  ((out.2 = LoopExit.done ∨ out.2 = LoopExit.exc) →
    ∀ j, j < out.1.execs.length → retOf j = 0) ∧
  ((∀ nm ∈ st.files, WfArtifact oname nm) → (∀ j, retOf j = 0) →
    out.2 = LoopExit.done ∧ ∀ nm ∈ out.1.files, WfArtifact oname nm)

theorem LoopConcl_extend {retOf : Nat → Int} {oname : List Char} {st stMid : LoopState}
    {out : LoopState × LoopExit}
    (hc : LoopConcl retOf oname stMid out)
    (ht0 : ∃ t0, stMid.execs = st.execs ++ t0)
    (hstf : (∀ nm ∈ st.files, WfArtifact oname nm) → (∀ j, retOf j = 0) →
      ∀ nm ∈ stMid.files, WfArtifact oname nm) :
    LoopConcl retOf oname st out := by
  obtain ⟨⟨tail, htail⟩, hfail, hdone, hwf⟩ := hc
  obtain ⟨t0, h0⟩ := ht0
  refine ⟨⟨t0 ++ tail, by rw [htail, h0, List.append_assoc]⟩, hfail, hdone, ?_⟩
  intro h1 h2
  exact hwf (hstf h1 h2) h2

theorem mainLoop_spec (cmd_base oname ofolder : List Char) (retOf : Nat → Int) :
    ∀ (ls : List (List Char)) (idx : Nat) (st : LoopState),
      (∀ j, j < st.execs.length → retOf j = 0) →
      LoopConcl retOf oname st (mainLoop cmd_base oname ofolder retOf ls idx st) := by
  intro ls
  induction ls with
  | nil =>
    intro idx st hpre
    refine ⟨⟨[], by simp [mainLoop]⟩, ?_, ?_, ?_⟩
    · intro i ret cmd hcon
      simp [mainLoop] at hcon
    · intro _ j hj
      exact hpre j (by simpa [mainLoop] using hj)
    · intro hwf _
      exact ⟨by simp [mainLoop], by simpa [mainLoop] using hwf⟩
  | cons l rest ih =>
    intro idx st hpre
    by_cases h1 : (hasPre (pyStrip l) "#".toList || (pyStrip l).isEmpty) = true
    · have hM : mainLoop cmd_base oname ofolder retOf (l :: rest) idx st =
          mainLoop cmd_base oname ofolder retOf rest (idx + 1) st := by
        simp only [mainLoop]
        rw [if_pos h1]
      rw [hM]
      exact ih (idx + 1) st hpre
    · have hexecs1 : (if hasPre (pyStrip l) "GLOBAL:".toList then
          { st with cmd_root := cmd_base ++ globalPayload (pyStrip l) } else st).execs =
          st.execs := by split <;> rfl
      have hfiles1 : (if hasPre (pyStrip l) "GLOBAL:".toList then
          { st with cmd_root := cmd_base ++ globalPayload (pyStrip l) } else st).files =
          st.files := by split <;> rfl
      by_cases h2 : (pyStrip l).getLast? = some '\\'
      · have hM : mainLoop cmd_base oname ofolder retOf (l :: rest) idx st =
            mainLoop cmd_base oname ofolder retOf rest (idx + 1)
              { (if hasPre (pyStrip l) "GLOBAL:".toList then
                  { st with cmd_root := cmd_base ++ globalPayload (pyStrip l) } else st) with
                args := ((if hasPre (pyStrip l) "GLOBAL:".toList then
                  { st with cmd_root := cmd_base ++ globalPayload (pyStrip l) } else st).args ++
                    ' ' :: pyStrip l).dropLast } := by
          simp only [mainLoop]
          rw [if_neg h1, if_pos h2]
        rw [hM]
        refine LoopConcl_extend (ih (idx + 1) _ ?_) ?_ ?_
        · intro j hj
          simp only [hexecs1] at hj
          exact hpre j hj
        · exact ⟨[], by rw [hexecs1, List.append_nil]⟩
        · intro hwf _
          rw [hfiles1]
          exact hwf
      · cases hseed : (if (if hasPre (pyStrip l) "GLOBAL:".toList then
              { st with cmd_root := cmd_base ++ globalPayload (pyStrip l) } else st).img_dst.isNone
            then
              (find_prev_frame idx oname
                (if hasPre (pyStrip l) "GLOBAL:".toList then
                  { st with cmd_root := cmd_base ++ globalPayload (pyStrip l) } else st).files).map
                (fun o => o.map (fun nm => ofolder ++ '/' :: nm))
            else Except.ok (if hasPre (pyStrip l) "GLOBAL:".toList then
              { st with cmd_root := cmd_base ++ globalPayload (pyStrip l) } else st).img_dst) with
        | error e =>
          have hM : mainLoop cmd_base oname ofolder retOf (l :: rest) idx st =
              ((if hasPre (pyStrip l) "GLOBAL:".toList then
                { st with cmd_root := cmd_base ++ globalPayload (pyStrip l) } else st),
               LoopExit.exc) := by
            simp only [mainLoop]
            rw [if_neg h1, if_neg h2, hseed]
          rw [hM]
          refine ⟨⟨[], by rw [hexecs1, List.append_nil]⟩, ?_, ?_, ?_⟩
          · intro i ret cmd hcon
            cases hcon
          · intro _ j hj
            simp only [hexecs1] at hj
            exact hpre j hj
          · intro hwf hz
            exfalso
            by_cases hN : (if hasPre (pyStrip l) "GLOBAL:".toList then
                { st with cmd_root := cmd_base ++ globalPayload (pyStrip l) } else st).img_dst.isNone = true
            · rw [if_pos hN] at hseed
              obtain ⟨o, ho⟩ := find_prev_frame_ok_of_wf idx oname
                (if hasPre (pyStrip l) "GLOBAL:".toList then
                  { st with cmd_root := cmd_base ++ globalPayload (pyStrip l) } else st).files
                (by rw [hfiles1]; exact hwf)
              rw [ho] at hseed
              cases hseed
            · rw [if_neg hN] at hseed
              cases hseed
        | ok img0 =>
          by_cases hret : retOf (if hasPre (pyStrip l) "GLOBAL:".toList then
              { st with cmd_root := cmd_base ++ globalPayload (pyStrip l) } else st).execs.length = 0
          · simp only [mainLoop]
            rw [if_neg h1, if_neg h2]
            simp only [hseed]
            rw [if_pos hret]
            refine LoopConcl_extend (ih (idx + 1) _ ?_) ?_ ?_
            · intro j hj
              dsimp only at hj
              rw [hexecs1, List.length_append] at hj
              simp only [List.length_cons, List.length_nil] at hj
              rcases Nat.lt_succ_iff_lt_or_eq.mp (by omega : j < st.execs.length + 1) with hj2 | hj2
              · exact hpre j hj2
              · subst hj2
                rw [← hexecs1]
                exact hret
            · exact ⟨_, by dsimp only; rw [hexecs1]⟩
            · intro hwf hz nm hnm
              dsimp only at hnm
              rw [hfiles1] at hnm
              by_cases hImg : (oname ++ natToDigits idx ++ IMG_EXT) ∈ st.files
              · rw [if_pos hImg] at hnm
                by_cases hVid : (oname ++ natToDigits idx ++ VID_EXT) ∈ st.files
                · rw [if_pos hVid] at hnm
                  exact hwf nm hnm
                · rw [if_neg hVid] at hnm
                  rcases List.mem_append.mp hnm with hnm | hnm
                  · exact hwf nm hnm
                  · rw [List.mem_singleton] at hnm
                    subst hnm
                    exact ⟨idx, Or.inr rfl⟩
              · rw [if_neg hImg] at hnm
                by_cases hVid : (oname ++ natToDigits idx ++ VID_EXT) ∈
                    st.files ++ [oname ++ natToDigits idx ++ IMG_EXT]
                · rw [if_pos hVid] at hnm
                  rcases List.mem_append.mp hnm with hnm | hnm
                  · exact hwf nm hnm
                  · rw [List.mem_singleton] at hnm
                    subst hnm
                    exact ⟨idx, Or.inl rfl⟩
                · rw [if_neg hVid] at hnm
                  rcases List.mem_append.mp hnm with hnm | hnm
                  · rcases List.mem_append.mp hnm with hnm | hnm
                    · exact hwf nm hnm
                    · rw [List.mem_singleton] at hnm
                      subst hnm
                      exact ⟨idx, Or.inl rfl⟩
                  · rw [List.mem_singleton] at hnm
                    subst hnm
                    exact ⟨idx, Or.inr rfl⟩
          · simp only [mainLoop]
            rw [if_neg h1, if_neg h2]
            simp only [hseed]
            rw [if_neg hret]
            refine ⟨⟨_, by dsimp only; rw [hexecs1]⟩, ?_, ?_, ?_⟩
            · intro i ret cmd hcon
              dsimp only at hcon
              injection hcon with e1 e2 e3
              subst e1
              subst e2
              subst e3
              refine ⟨?_, ?_, hret, ?_⟩
              · dsimp only
                exact List.getLast?_concat _
              · dsimp only
                rw [hexecs1, List.length_append]
                simp only [List.length_cons, List.length_nil]
                congr 1
              · intro j hj
                dsimp only at hj
                rw [hexecs1, List.length_append] at hj
                simp only [List.length_cons, List.length_nil] at hj
                exact hpre j (by omega)
            · intro hcon
              rcases hcon with hcon | hcon <;> (dsimp only at hcon; cases hcon)
            · intro _ hz
              exact absurd (hz _) hret

/-- C9 (amended): the process exit code is 1 when the output folder exists
and force is not set, with no job executed; 2 exactly when a generation job
returns nonzero, aborting immediately after the failing job — which is the
last execution, all earlier ones having succeeded — and reporting its exit
status and invocation; and 0 on a fully successful run from an empty
folder. -/
theorem c9_exit_codes (e : MainEnv) :
    (e.folderExistsDir = true → e.force = false →
      runMain e = ⟨MainOutcome.exited 1, [], none⟩) ∧
    ((runMain e).outcome = MainOutcome.exited 2 →
      ∃ i ret cmd, (runMain e).execs.getLast? = some ⟨i, cmd⟩ ∧
        ret = e.retOf ((runMain e).execs.length - 1) ∧ ret ≠ 0 ∧
        (runMain e).errMsg = some (failMsg ret cmd) ∧
        (∀ j, j < (runMain e).execs.length - 1 → e.retOf j = 0)) ∧
    ((∃ j, j < (runMain e).execs.length ∧ e.retOf j ≠ 0) →
      (runMain e).outcome = MainOutcome.exited 2) ∧
    ((e.folderExistsDir = false ∨ e.force = true) → e.initialFiles = [] →
      (∀ j, e.retOf j = 0) → e.concatOk = true → e.audioOn = false →
      (runMain e).outcome = MainOutcome.exited 0) := by
  by_cases hcond : (e.folderExistsDir && !e.force) = true
  · have hrun : runMain e = ⟨MainOutcome.exited 1, [], none⟩ := by
      unfold runMain
      rw [if_pos hcond]
    refine ⟨fun _ _ => hrun, ?_, ?_, ?_⟩
    · intro hout
      rw [hrun] at hout
      simp at hout
    · rintro ⟨j, hj, _⟩
      rw [hrun] at hj
      simp at hj
    · intro hor _ _ _ _
      rcases Bool.and_eq_true_iff.mp hcond with ⟨h1, h2⟩
      rcases hor with hor | hor
      · rw [hor] at h1; cases h1
      · rw [hor] at h2; cases h2
  · have hc0 := mainLoop_spec ("python ".toList ++ e.gen_script_path ++ " -vid ".toList)
      e.oname e.ofolder e.retOf e.scriptLines 0
      ⟨"python ".toList ++ e.gen_script_path ++ " -vid ".toList, [], none, e.initialFiles, []⟩
      (by intro j hj; simp at hj)
    rcases hML : mainLoop ("python ".toList ++ e.gen_script_path ++ " -vid ".toList)
        e.oname e.ofolder e.retOf e.scriptLines 0
        ⟨"python ".toList ++ e.gen_script_path ++ " -vid ".toList, [], none,
          e.initialFiles, []⟩ with ⟨st', ex⟩
    rw [hML] at hc0
    obtain ⟨⟨tail, htail⟩, hfail, hdone, hwf⟩ := hc0
    have hwfvac : e.initialFiles = [] →
        ∀ nm ∈ (⟨"python ".toList ++ e.gen_script_path ++ " -vid ".toList, [], none,
          e.initialFiles, []⟩ : LoopState).files, WfArtifact e.oname nm := by
      intro hinit nm hnm
      dsimp only at hnm
      rw [hinit] at hnm
      cases hnm
    have hcontra1 : ∀ P : Prop, e.folderExistsDir = true → e.force = false → P := by
      intro P h1 h2
      rw [h1, h2] at hcond
      simp at hcond
    cases ex with
    | failed i ret cmd =>
      have hrun : runMain e = ⟨MainOutcome.exited 2, st'.execs, some (failMsg ret cmd)⟩ := by
        unfold runMain
        rw [if_neg hcond]
        simp only [hML]
      obtain ⟨hlast, hretv, hretne, hzero⟩ := hfail i ret cmd rfl
      refine ⟨fun h1 h2 => hcontra1 _ h1 h2, ?_, ?_, ?_⟩
      · intro _
        refine ⟨i, ret, cmd, ?_, ?_, hretne, ?_, ?_⟩
        · rw [hrun]; exact hlast
        · rw [hrun]; exact hretv
        · rw [hrun]
        · rw [hrun]; exact hzero
      · intro _
        rw [hrun]
      · intro _ hinit hz _ _
        have hd := (hwf (hwfvac hinit) hz).1
        cases hd
    | exc =>
      have hrun : runMain e = ⟨MainOutcome.raised, st'.execs, none⟩ := by
        unfold runMain
        rw [if_neg hcond]
        simp only [hML]
      refine ⟨fun h1 h2 => hcontra1 _ h1 h2, ?_, ?_, ?_⟩
      · intro hout
        rw [hrun] at hout
        cases hout
      · rintro ⟨j, hj, hne⟩
        rw [hrun] at hj
        exact absurd (hdone (Or.inr rfl) j hj) hne
      · intro _ hinit hz _ _
        have hd := (hwf (hwfvac hinit) hz).1
        cases hd
    | done =>
      cases hCC : collectClips e.oname
          (st'.files.filter (fun nm => !(nm = e.oname ++ VID_EXT))) with
      | error u =>
        have hrun : runMain e = ⟨MainOutcome.raised, st'.execs, none⟩ := by
          unfold runMain
          rw [if_neg hcond]
          simp only [hML, hCC]
        refine ⟨fun h1 h2 => hcontra1 _ h1 h2, ?_, ?_, ?_⟩
        · intro hout
          rw [hrun] at hout
          cases hout
        · rintro ⟨j, hj, hne⟩
          rw [hrun] at hj
          exact absurd (hdone (Or.inl rfl) j hj) hne
        · intro _ hinit hz _ _
          exfalso
          have hwfout := (hwf (hwfvac hinit) hz).2
          obtain ⟨l, hl⟩ := collectClips_ok_of_wf e.oname
            (st'.files.filter (fun nm => !(nm = e.oname ++ VID_EXT)))
            (by
              intro nm hnm
              exact hwfout nm (List.mem_filter.mp hnm).1)
          rw [hCC] at hl
          cases hl
      | ok clips =>
        cases hMR : (merge_videos e.resolve clips e.audioOn e.concatOk e.audioOk).result with
        | error u =>
          have hrun : runMain e = ⟨MainOutcome.raised, st'.execs, none⟩ := by
            unfold runMain
            rw [if_neg hcond]
            simp only [hML, hCC, hMR]
          refine ⟨fun h1 h2 => hcontra1 _ h1 h2, ?_, ?_, ?_⟩
          · intro hout
            rw [hrun] at hout
            cases hout
          · rintro ⟨j, hj, hne⟩
            rw [hrun] at hj
            exact absurd (hdone (Or.inl rfl) j hj) hne
          · intro _ _ _ hcok han
            exfalso
            rw [han, hcok] at hMR
            simp [merge_videos] at hMR
        | ok u =>
          have hrun : runMain e = ⟨MainOutcome.exited 0, st'.execs, none⟩ := by
            unfold runMain
            rw [if_neg hcond]
            simp only [hML, hCC, hMR]
          refine ⟨fun h1 h2 => hcontra1 _ h1 h2, ?_, ?_, ?_⟩
          · intro hout
            rw [hrun] at hout
            simp at hout
          · rintro ⟨j, hj, hne⟩
            rw [hrun] at hj
            exact absurd (hdone (Or.inl rfl) j hj) hne
          · intro _ _ _ _ _
            rw [hrun]

/-- Run refused because the output folder already exists without `--force`. -/
def envExists9 : MainEnv := { envFailA with folderExistsDir := true }

/-- Fully successful run of the one-line script. -/
def envSucc9 : MainEnv := { envFailA with retOf := fun _ => 0 }

theorem c9_exit_codes_witness :
    runMain envExists9 = ⟨MainOutcome.exited 1, [], none⟩ ∧
    (∃ i ret cmd, (runMain envFailA).execs.getLast? = some ⟨i, cmd⟩ ∧
      ret = envFailA.retOf ((runMain envFailA).execs.length - 1) ∧ ret ≠ 0 ∧
      (runMain envFailA).errMsg = some (failMsg ret cmd) ∧
      (∀ j, j < (runMain envFailA).execs.length - 1 → envFailA.retOf j = 0)) ∧
    (runMain envSucc9).outcome = MainOutcome.exited 0 :=
  ⟨(c9_exit_codes envExists9).1 rfl rfl,
   (c9_exit_codes envFailA).2.1 rfl,
   (c9_exit_codes envSucc9).2.2.2 (Or.inl rfl) rfl (fun _ => rfl) rfl rfl⟩

end Dream
